import Mathlib

/-!
Verification development for the Modern Art auction game server.

This file gives a shallow embedding of the server's core logic
(`cards.py`, `auction.py`, `game.py`, `ai_player.py`) as executable Lean
definitions, and proves or refutes the specified properties of the engine.

Conventions of the embedding:
* Python `int` values become `Int` (money, bids, prices, client-supplied
  indices); list indices that the code guarantees non-negative become `Nat`.
* Python dictionaries keyed by player index become insertion-ordered
  association lists (`List (Nat × Int)`), matching CPython dict semantics.
* Mutating methods become functions returning the updated value; methods
  that can also report an error or a resolution return those in a tuple,
  mirroring the `(error, result)` convention of `Auction.process_action`.
* Network sends, logging and `asyncio.sleep` are I/O with no effect on the
  game state; they are dropped.  Error sends (`_send_error`) and the
  aggregate round-end payout are recorded as an event list so that the
  observable behaviour of each handler is kept.
-/

namespace ModernArt

/-! ### cards.py -/

/-- The five artists, `ARTISTS` in `cards.py`. -/
inductive Artist
  | orangeTarou
  | greenTarou
  | blueTarou
  | yellowTarou
  | redTarou
deriving DecidableEq, Repr

open Artist

/-- `ARTISTS` list (fixed priority order used for tie-breaks). -/
def ARTISTS : List Artist :=
  [orangeTarou, greenTarou, blueTarou, yellowTarou, redTarou]

/-- `ARTISTS.index a`. -/
def artistIdx : Artist → Nat
  | orangeTarou => 0
  | greenTarou => 1
  | blueTarou => 2
  | yellowTarou => 3
  | redTarou => 4

/-- The five auction types, `AUCTION_TYPES` in `cards.py`.
`openT` stands for the string `"open"`. -/
inductive AuctionType
  | openT
  | onceAround
  | sealed
  | fixedPrice
  | double
deriving DecidableEq, Repr

open AuctionType

def STARTING_MONEY : Int := 100000

def MAX_ROUNDS : Nat := 4

def ROUND_END_CARD_COUNT : Nat := 5

/-- A card (`cards.Card`). -/
structure Card where
  card_id : Nat
  artist : Artist
  auction_type : AuctionType
deriving DecidableEq, Repr

instance : Inhabited Card := ⟨⟨0, orangeTarou, openT⟩⟩

/-- `ROUND_VALUES` table: value for 1-based rank, `None` when the rank
earns nothing. -/
def ROUND_VALUES : Nat → Option Int
  | 1 => some 30000
  | 2 => some 20000
  | 3 => some 10000
  | _ => none

/-- `DEAL_COUNTS[num_players]`: cards dealt per round. -/
def DEAL_COUNTS : Nat → List Nat
  | 3 => [10, 6, 6, 6]
  | 4 => [9, 4, 4, 4]
  | 5 => [8, 3, 3, 3]
  | _ => []

/-- The comparison used by `calculate_round_values`:
`sorted(..., key=lambda x: (-x[1], ARTISTS.index(x[0])))` over
`(artist, count)` pairs — lexicographic `≤` on `(-count, artist index)`,
written out: a strictly larger count comes first, and on equal counts the
artist earlier in `ARTISTS` comes first. -/
def roundSortLE (x y : Artist × Nat) : Prop :=
  y.2 < x.2 ∨ (x.2 = y.2 ∧ artistIdx x.1 ≤ artistIdx y.1)

/-- Strict version of `roundSortLE` (lexicographic `<` on
`(-count, artist index)`). -/
def roundSortLT (x y : Artist × Nat) : Prop :=
  y.2 < x.2 ∨ (x.2 = y.2 ∧ artistIdx x.1 < artistIdx y.1)

instance : DecidableRel roundSortLE := fun x y => by
  unfold roundSortLE
  exact inferInstance

instance : DecidableRel roundSortLT := fun x y => by
  unfold roundSortLT
  exact inferInstance

/-- The assignment loop of `calculate_round_values`: walks the sorted
list with a 0-based rank counter, writing `ROUND_VALUES[rank+1]` into the
value table when present. -/
def assignRoundValues : List (Artist × Nat) → Nat → (Artist → Int) → (Artist → Int)
  | [], _, acc => acc
  | (a, _) :: rest, rank, acc =>
      match ROUND_VALUES (rank + 1) with
      | some v => assignRoundValues rest (rank + 1) (Function.update acc a v)
      | none => assignRoundValues rest (rank + 1) acc

/-- `cards.calculate_round_values`: artists with a positive count are
sorted by `(-count, artist priority)` and ranks 1..3 receive the fixed
round values; everyone else gets 0. -/
def calculate_round_values (board : Artist → Nat) : Artist → Int :=
  let sorted_artists :=
    List.insertionSort roundSortLE
      ((ARTISTS.map (fun a => (a, board a))).filter (fun x => 0 < x.2))
  assignRoundValues sorted_artists 0 (fun _ => 0)

/-! ### deck dealing (`cards.deal_cards`) -/

/-- One inner pass of `deal_cards`: give one card off the front of the
deck to each player in index order. -/
def dealOnce (numPlayers : Nat) (hands : List (List Card)) (deck : List Card) :
    List (List Card) × List Card :=
  (List.range numPlayers).foldl
    (fun (st : List (List Card) × List Card) p =>
      match st.2 with
      | [] => st
      | c :: rest => (st.1.set p (st.1.getD p [] ++ [c]), rest))
    (hands, deck)

/-- The outer loop of `deal_cards`: repeat `dealOnce` `count` times. -/
def dealLoop (numPlayers : Nat) : Nat → List (List Card) × List Card →
    List (List Card) × List Card
  | 0, st => st
  | n + 1, st => dealLoop numPlayers n (dealOnce numPlayers st.1 st.2)

/-- `cards.deal_cards deck num_players round_num`, returning the hands and
the remaining deck. -/
def deal_cards (deck : List Card) (numPlayers roundNum : Nat) :
    List (List Card) × List Card :=
  let count := (DEAL_COUNTS numPlayers).getD (roundNum - 1) 0
  dealLoop numPlayers count (List.replicate numPlayers [], deck)

/-! ### auction.py -/

/-- `auction.AuctionState`. -/
inductive AuctionState
  | waitingForBids
  | waitingForPrice
  | waitingForAccept
  | waitingForDouble
  | resolved
deriving DecidableEq, Repr

open AuctionState

/-- `auction.AuctionResult`.  `winner_index` is `-1` only as the
documented sentinel; all constructed results carry a real index. -/
structure AuctionResult where
  winner_index : Int
  price : Int
  seller_index : Nat
deriving DecidableEq, Repr

/-- Insertion-ordered dict assignment `d[k] = v` for `Dict[int, int]`:
an existing key is overwritten in place, a new key is appended. -/
def dictSet (l : List (Nat × Int)) (k : Nat) (v : Int) : List (Nat × Int) :=
  if l.any (fun kv => kv.1 = k) then
    l.map (fun kv => if kv.1 = k then (k, v) else kv)
  else
    l ++ [(k, v)]

/-- `k in d` for the bids dict. -/
def dictHas (l : List (Nat × Int)) (k : Nat) : Bool :=
  l.any (fun kv => kv.1 = k)

/-- Python `max(d.values())` on a non-empty dict (callers guard emptiness;
the empty case returns 0, unreachable through the guarded call site). -/
def dictMaxVal : List (Nat × Int) → Int
  | [] => 0
  | kv :: rest => rest.foldl (fun m x => max m x.2) kv.2

/-- Python `max(d.items(), key=lambda x: (x[1], -x[0]))` on a non-empty
dict: keeps the current best unless the candidate's key is strictly
greater, i.e. a strictly higher bid, or an equal bid from a strictly
lower player index. -/
def dictMaxByBid : List (Nat × Int) → Nat × Int
  | [] => (0, 0)
  | kv :: rest =>
      rest.foldl
        (fun best x =>
          if best.2 < x.2 ∨ (best.2 = x.2 ∧ x.1 < best.1) then x else best)
        kv

/-- `auction.Auction` (the dataclass fields). -/
structure Auction where
  auction_type : AuctionType
  seller_index : Nat
  card : Card
  num_players : Nat
  double_card : Option Card := none
  state : AuctionState := waitingForBids
  current_bid : Int := 0
  current_bidder : Int := -1
  fixed_price : Int := 0
  bids : List (Nat × Int) := []
  passed : List Nat := []
  current_turn_index : Int := -1
  sealed_bids_received : Nat := 0
deriving DecidableEq, Repr

namespace Auction

/-- Constructor plus `__post_init__`: a `fixed_price` auction starts in
`WAITING_FOR_PRICE`; everything else keeps the default state. -/
def create (ty : AuctionType) (seller : Nat) (card : Card) (n : Nat)
    (dc : Option Card := none) : Auction :=
  { auction_type := ty, seller_index := seller, card := card,
    num_players := n, double_card := dc,
    state := if ty = fixedPrice then waitingForPrice else waitingForBids }

/-- `Auction.get_next_player`: first index clockwise from `fromIdx` that
has not passed, or `-1`. -/
def get_next_player (a : Auction) (fromIdx : Nat) : Int :=
  match (((List.range (a.num_players - 1)).map
      (fun i => (fromIdx + i + 1) % a.num_players)).find?
      (fun idx => ¬ idx ∈ a.passed)) with
  | some idx => (idx : Int)
  | none => -1

/-- `Auction.get_can_act_player`. -/
def get_can_act_player (a : Auction) : Int :=
  if a.state = resolved then -1
  else if a.auction_type = openT then -1
  else if a.auction_type = onceAround then a.current_turn_index
  else if a.auction_type = sealed then -1
  else if a.auction_type = fixedPrice then
    if a.state = waitingForPrice then (a.seller_index : Int)
    else a.current_turn_index
  else -1

/-- `Auction.open_bid`: returns `(error, updated auction)`. -/
def open_bid (a : Auction) (p : Nat) (amount : Int) : Option String × Auction :=
  if a.auction_type ≠ openT then (some "Wrong auction type", a)
  else if p = a.seller_index then (some "Seller cannot bid", a)
  else if amount ≤ a.current_bid then
    (some ("Bid must be higher than " ++ toString a.current_bid), a)
  else if amount % 1000 ≠ 0 then (some "Bid must be in multiples of 1000", a)
  else
    (none, { a with current_bid := amount, current_bidder := (p : Int),
                    bids := dictSet a.bids p amount })

/-- `Auction.open_pass`. -/
def open_pass (a : Auction) (p : Nat) : Auction :=
  if p ∈ a.passed then a else { a with passed := a.passed ++ [p] }

/-- The `active` list computed inside `Auction.check_open_resolved`: the
non-seller players who have not passed (the eligible bidders that
remain). -/
def openActive (a : Auction) : List Nat :=
  (List.range a.num_players).filter
    (fun i => i ≠ a.seller_index ∧ ¬ i ∈ a.passed)

/-- `Auction.check_open_resolved`. -/
def check_open_resolved (a : Auction) : Option AuctionResult × Auction :=
  let active := a.openActive
  if active.length = 0 ∨
      (active.length = 1 ∧ (active.getD 0 0 : Int) = a.current_bidder ∧
        0 < a.current_bid) then
    let a' := { a with state := resolved }
    if a.current_bidder = -1 then
      (some ⟨(a.seller_index : Int), 0, a.seller_index⟩, a')
    else
      (some ⟨a.current_bidder, a.current_bid, a.seller_index⟩, a')
  else (none, a)

/-- `Auction.start_once_around`. -/
def start_once_around (a : Auction) : Auction :=
  { a with current_turn_index := a.get_next_player a.seller_index,
           state := waitingForBids }

/-- `Auction.once_around_bid`. -/
def once_around_bid (a : Auction) (p : Nat) (amount : Int) :
    Option String × Auction :=
  if (p : Int) ≠ a.current_turn_index then (some "Not your turn", a)
  else if amount ≤ a.current_bid then
    (some ("Bid must be higher than " ++ toString a.current_bid), a)
  else if amount % 1000 ≠ 0 then (some "Bid must be in multiples of 1000", a)
  else
    let a' := { a with current_bid := amount, current_bidder := (p : Int),
                       bids := dictSet a.bids p amount,
                       passed := a.passed ++ [p] }
    (none, { a' with current_turn_index := a'.get_next_player p })

/-- `Auction.once_around_pass`. -/
def once_around_pass (a : Auction) (p : Nat) : Auction :=
  let a' := if p ∈ a.passed then a else { a with passed := a.passed ++ [p] }
  { a' with current_turn_index := a'.get_next_player p }

/-- `Auction.check_once_around_resolved`. -/
def check_once_around_resolved (a : Auction) : Option AuctionResult × Auction :=
  if a.current_turn_index = (a.seller_index : Int) ∨ a.current_turn_index = -1 then
    let a' := { a with state := resolved }
    if a.current_bidder = -1 then
      (some ⟨(a.seller_index : Int), 0, a.seller_index⟩, a')
    else
      (some ⟨a.current_bidder, a.current_bid, a.seller_index⟩, a')
  else (none, a)

/-- `Auction.sealed_bid`. -/
def sealed_bid (a : Auction) (p : Nat) (amount : Int) : Option String × Auction :=
  if p = a.seller_index then (some "Seller cannot bid", a)
  else if dictHas a.bids p then (some "Already submitted a bid", a)
  else if amount < 0 then (some "Invalid bid amount", a)
  else if amount % 1000 ≠ 0 then (some "Bid must be in multiples of 1000", a)
  else
    (none, { a with bids := dictSet a.bids p amount,
                    sealed_bids_received := a.sealed_bids_received + 1 })

/-- `Auction.sealed_pass`. -/
def sealed_pass (a : Auction) (p : Nat) : Auction :=
  if ¬ dictHas a.bids p ∧ p ≠ a.seller_index then
    { a with bids := dictSet a.bids p 0,
             sealed_bids_received := a.sealed_bids_received + 1 }
  else a

/-- `Auction.check_sealed_resolved`. -/
def check_sealed_resolved (a : Auction) : Option AuctionResult × Auction :=
  let expected := a.num_players - 1
  if a.sealed_bids_received ≥ expected then
    let a' := { a with state := resolved }
    if a.bids = [] ∨ dictMaxVal a.bids = 0 then
      (some ⟨(a.seller_index : Int), 0, a.seller_index⟩, a')
    else
      let winner := dictMaxByBid a.bids
      (some ⟨(winner.1 : Int), winner.2, a.seller_index⟩, a')
  else (none, a)

/-- `Auction.set_fixed_price`. -/
def set_fixed_price (a : Auction) (price : Int) : Option String × Auction :=
  if a.state ≠ waitingForPrice then (some "Not waiting for price", a)
  else if price ≤ 0 then (some "Price must be positive", a)
  else if price % 1000 ≠ 0 then (some "Price must be in multiples of 1000", a)
  else
    (none, { a with fixed_price := price, current_bid := price,
                    state := waitingForAccept,
                    current_turn_index := a.get_next_player a.seller_index })

/-- `Auction.fixed_price_accept`: silently ignores a non-cursor actor. -/
def fixed_price_accept (a : Auction) (p : Nat) :
    Option AuctionResult × Auction :=
  if (p : Int) ≠ a.current_turn_index then (none, a)
  else
    (some ⟨(p : Int), a.fixed_price, a.seller_index⟩, { a with state := resolved })

/-- `Auction.fixed_price_decline`. -/
def fixed_price_decline (a : Auction) (p : Nat) : Auction :=
  let a' := if p ∈ a.passed then a else { a with passed := a.passed ++ [p] }
  { a' with current_turn_index := a'.get_next_player p }

/-- `Auction.check_fixed_price_resolved`. -/
def check_fixed_price_resolved (a : Auction) : Option AuctionResult × Auction :=
  if a.state ≠ waitingForAccept then (none, a)
  else if a.current_turn_index = -1 ∨
      a.current_turn_index = (a.seller_index : Int) then
    (some ⟨(a.seller_index : Int), a.fixed_price, a.seller_index⟩,
      { a with state := resolved })
  else (none, a)

end Auction

/-- The action kinds accepted by `Auction.process_action`. -/
inductive AAct
  | bid
  | passA
  | decline
  | set_price
  | accept
deriving DecidableEq, Repr

/-- Combine a validating step (returning `(error, auction)`) with the
protocol's resolution check, mirroring the
`error = step(); if not error: result = check()` shape used by every
validated branch of `Auction.process_action`. -/
def stepThenCheck (step : Option String × Auction)
    (check : Auction → Option AuctionResult × Auction) :
    Option String × Option AuctionResult × Auction :=
  match step with
  | (some e, a') => (some e, none, a')
  | (none, a') => (none, (check a').1, (check a').2)

/-- Combine an unvalidated step (pass/decline, which never errors) with
the protocol's resolution check. -/
def passThenCheck (a' : Auction)
    (check : Auction → Option AuctionResult × Auction) :
    Option String × Option AuctionResult × Auction :=
  (none, (check a').1, (check a').2)

/-- `Auction.process_action`: dispatch on the auction's protocol and the
action kind, returning `(error, result, updated auction)`.  Combinations
with no matching branch fall through with neither error nor result. -/
def Auction.process_action (a : Auction) (p : Nat) (act : AAct)
    (amount : Int := 0) : Option String × Option AuctionResult × Auction :=
  match a.auction_type, act with
  | openT, .bid => stepThenCheck (a.open_bid p amount) Auction.check_open_resolved
  | openT, .passA => passThenCheck (a.open_pass p) Auction.check_open_resolved
  | onceAround, .bid =>
      stepThenCheck (a.once_around_bid p amount) Auction.check_once_around_resolved
  | onceAround, .passA =>
      passThenCheck (a.once_around_pass p) Auction.check_once_around_resolved
  | sealed, .bid => stepThenCheck (a.sealed_bid p amount) Auction.check_sealed_resolved
  | sealed, .passA => passThenCheck (a.sealed_pass p) Auction.check_sealed_resolved
  | fixedPrice, .set_price =>
      stepThenCheck (a.set_fixed_price amount) Auction.check_fixed_price_resolved
  | fixedPrice, .accept =>
      (none, (a.fixed_price_accept p).1, (a.fixed_price_accept p).2)
  | fixedPrice, .passA =>
      passThenCheck (a.fixed_price_decline p) Auction.check_fixed_price_resolved
  | fixedPrice, .decline =>
      passThenCheck (a.fixed_price_decline p) Auction.check_fixed_price_resolved
  | _, _ => (none, none, a)

/-! ### game.py -/

/-- `game.Player`, restricted to the state-bearing fields (id, display
name and the WebSocket/AI flags only affect I/O routing). -/
structure PlayerSt where
  money : Int := STARTING_MONEY
  hand : List Card := []
  paintings : List Card := []
deriving DecidableEq, Repr

instance : Inhabited PlayerSt := ⟨{}⟩

/-- Observable side effects of a handler: an error sent to a player
(`_send_error`) or the aggregate amount paid to players out of the market
at a round end. -/
inductive Evt
  | errE (p : Nat) (msg : String)
  | payoutE (amount : Int)
deriving DecidableEq, Repr

/-- Sum of the round-end payouts in an event list. -/
def payoutOf (evts : List Evt) : Int :=
  (evts.map (fun e => match e with | .payoutE a => a | .errE _ _ => 0)).sum

/-- Whether an event list contains an error sent to some player. -/
def hasError (evts : List Evt) : Bool :=
  evts.any (fun e => match e with | .errE _ _ => true | .payoutE _ => false)

/-- `game.Game`: the per-room aggregate state.  `ai_controller` and the
`_ai_processing` guard only drive which handler gets called next, so they
do not appear; AI-made calls are ordinary handler invocations. -/
structure GameSt where
  players : List PlayerSt
  num_players : Nat
  deck : List Card
  round_num : Nat := 0
  current_turn : Nat := 0
  board : Artist → Nat := fun _ => 0
  market : Artist → Int := fun _ => 0
  current_auction : Option Auction := none
  round_active : Bool := false
  game_over : Bool := false
  waiting_for_double : Bool := false
  double_base_card : Option Card := none
  double_player_index : Int := -1

namespace GameSt

/-- Python list indexing semantics for player updates: a negative index
counts from the end; out-of-range indices touch nothing (all reachable
call sites are in range). -/
def updPlayer (ps : List PlayerSt) (i : Int) (f : PlayerSt → PlayerSt) :
    List PlayerSt :=
  let j := if i < 0 then i + (ps.length : Int) else i
  ps.mapIdx (fun k p => if (k : Int) = j then f p else p)

/-- Read of `self.players[p]` for a `Nat` index. -/
def getPlayer (g : GameSt) (p : Nat) : PlayerSt :=
  g.players.getD p default

/-- `Game._check_round_end`. -/
def check_round_end (g : GameSt) (artist : Artist) : Bool :=
  g.board artist ≥ ROUND_END_CARD_COUNT

/-- `Game._end_game`: records the game as over (the winner computation
and messages have no effect on the stored state). -/
def end_game (g : GameSt) : GameSt × List Evt :=
  ({ g with game_over := true }, [])

/-- `Game._end_round`: scores the board into the market, pays every
player the market value of each held painting, clears paintings, advances
the round counter, and either ends the game (after round 4) or resets the
board, deals the next hands and reopens the round. -/
def end_round (g : GameSt) : GameSt × List Evt :=
  let g1 := { g with round_active := false }
  let round_values := calculate_round_values g1.board
  let market' := fun a => g1.market a + round_values a
  let earn := fun (p : PlayerSt) => (p.paintings.map (fun c => market' c.artist)).sum
  let payout := (g1.players.map earn).sum
  let players' := g1.players.map (fun p =>
    { p with money := p.money + earn p, paintings := [] })
  let g2 := { g1 with market := market', players := players',
                      round_num := g1.round_num + 1 }
  if g2.round_num > MAX_ROUNDS then
    let (g3, evts) := g2.end_game
    (g3, Evt.payoutE payout :: evts)
  else
    let g3 := { g2 with board := fun _ => 0 }
    let (new_hands, deck') := deal_cards g3.deck g3.num_players g3.round_num
    let players'' := g3.players.mapIdx (fun i p =>
      { p with hand := p.hand ++ new_hands.getD i [] })
    ({ g3 with players := players'', deck := deck',
               round_active := true, current_turn := 0 },
      [Evt.payoutE payout])

/-- `Game._advance_turn`: next clockwise player with a non-empty hand, or
end the round when no hand is non-empty.  The scan
`for i in range(1, num_players + 1)` includes the current player last. -/
def advance_turn (g : GameSt) : GameSt × List Evt :=
  if ¬ g.players.any (fun p => p.hand.length > 0) then g.end_round
  else
    let next := (((List.range' 1 g.num_players).map
        (fun i => (g.current_turn + i) % g.num_players)).find?
        (fun idx => (g.getPlayer idx).hand.length > 0)).getD g.current_turn
    ({ g with current_turn := next }, [])

/-- `self.current_auction.card` as read by `_resolve_auction` (the
auction is always present at that point; `default` stands for the
`AttributeError` that a missing one would raise). -/
def auctionCard (g : GameSt) : Card :=
  match g.current_auction with
  | some a => a.card
  | none => default

/-- `Game._resolve_auction`: transfer the price from winner to seller
unless the seller won, give the auctioned card to the winner's paintings
pile, discard the auction and advance the turn. -/
def resolve_auction (g : GameSt) (r : AuctionResult) : GameSt × List Evt :=
  let card_info := g.auctionCard
  let ps := if r.winner_index ≠ (r.seller_index : Int) then
      updPlayer (updPlayer g.players r.winner_index
          (fun p => { p with money := p.money - r.price }))
        (r.seller_index : Int) (fun p => { p with money := p.money + r.price })
    else g.players
  let ps' := updPlayer ps r.winner_index
    (fun p => { p with paintings := p.paintings ++ [card_info] })
  let g' := { g with players := ps', current_auction := none }
  g'.advance_turn

/-- `Game._start_auction`: build the `Auction` (running
`start_once_around` for the once-around protocol) and store it. -/
def start_auction (g : GameSt) (seller : Nat) (card : Card)
    (ty : AuctionType) (dc : Option Card := none) : GameSt × List Evt :=
  let au := Auction.create ty seller card g.num_players dc
  let au := if ty = onceAround then au.start_once_around else au
  ({ g with current_auction := some au }, [])

/-- `Game._play_single_card`: remove the card from the hand, bump the
board, and either end the round (count reached 5) or start the card's
auction. -/
def play_single_card (g : GameSt) (p : Nat) (card : Card) (ci : Nat) :
    GameSt × List Evt :=
  let g1 := { g with
    players := updPlayer g.players (p : Int)
      (fun pl => { pl with hand := pl.hand.eraseIdx ci }),
    board := Function.update g.board card.artist (g.board card.artist + 1) }
  if g1.check_round_end card.artist then g1.end_round
  else g1.start_auction p card card.auction_type

/-- `Game._play_double`: remove both cards, apply the two board
increments one at a time checking the round-end threshold after each, and
start the effective-protocol auction only if neither increment ended the
round. -/
def play_double (g : GameSt) (p : Nat) (card1 : Card) (idx1 : Nat)
    (card2 : Card) (idx2 : Nat) : GameSt × List Evt :=
  let hi := max idx1 idx2
  let lo := min idx1 idx2
  let g0 := { g with
    players := updPlayer g.players (p : Int)
      (fun pl => { pl with hand := (pl.hand.eraseIdx hi).eraseIdx lo }) }
  let g1 := { g0 with
    board := Function.update g0.board card1.artist (g0.board card1.artist + 1) }
  if g1.check_round_end card1.artist then g1.end_round
  else
    let g2 := { g1 with
      board := Function.update g1.board card1.artist (g1.board card1.artist + 1) }
    if g2.check_round_end card1.artist then g2.end_round
    else
      let effective := if card2.auction_type = double then openT
        else card2.auction_type
      g2.start_auction p card1 effective (some card2)

/-- `Game.handle_play_card`.  `ci`/`dci` are the client-supplied indices
(`double_card_index` defaults to `-1`). -/
def handle_play_card (g : GameSt) (p : Nat) (ci : Int) (dci : Int := -1) :
    GameSt × List Evt :=
  if g.game_over ∨ ¬ g.round_active then (g, [.errE p "Game not active"])
  else if g.current_auction.isSome then (g, [.errE p "Auction in progress"])
  else if p ≠ g.current_turn then (g, [.errE p "Not your turn"])
  else
    let player := g.getPlayer p
    if ci < 0 ∨ ci ≥ (player.hand.length : Int) then
      (g, [.errE p "Invalid card index"])
    else
      let card := player.hand.getD ci.toNat default
      if card.auction_type = double then
        if dci ≥ 0 then
          if dci ≥ (player.hand.length : Int) ∨ dci = ci then
            (g, [.errE p "Invalid double card index"])
          else
            let second_card := player.hand.getD dci.toNat default
            if second_card.artist ≠ card.artist then
              (g, [.errE p "Double card must be same artist"])
            else g.play_double p card ci.toNat second_card dci.toNat
        else
          let has_match := (List.range player.hand.length).any (fun i =>
            (player.hand.getD i default).artist = card.artist ∧ (i : Int) ≠ ci)
          if has_match then
            ({ g with waiting_for_double := true,
                      double_base_card := some card,
                      double_player_index := (p : Int),
                      players := updPlayer g.players (p : Int)
                        (fun pl => { pl with hand := pl.hand.eraseIdx ci.toNat }) },
              [])
          else
            g.play_single_card p { card with auction_type := openT } ci.toNat
      else g.play_single_card p card ci.toNat

/-- The shared tail of `Game.handle_double_response` reached when no
valid same-artist second card was named: play the escrowed base card
alone as an `open` auction (single board increment, round-end check). -/
def double_decline_tail (g : GameSt) (p : Nat) (base : Card) :
    GameSt × List Evt :=
  let g1 := { g with
    board := Function.update g.board base.artist (g.board base.artist + 1) }
  if g1.check_round_end base.artist then g1.end_round
  else g1.start_auction p base openT

/-- `Game.handle_double_response`. -/
def handle_double_response (g : GameSt) (p : Nat) (sci : Int := -1) :
    GameSt × List Evt :=
  if ¬ g.waiting_for_double ∨ (p : Int) ≠ g.double_player_index then (g, [])
  else
    let player := g.getPlayer p
    let base := g.double_base_card.getD default
    let g0 := { g with waiting_for_double := false,
                       double_base_card := none,
                       double_player_index := -1 }
    if 0 ≤ sci ∧ sci < (player.hand.length : Int) then
      let second := player.hand.getD sci.toNat default
      if second.artist = base.artist then
        let g1 := { g0 with
          players := updPlayer g0.players (p : Int)
            (fun pl => { pl with hand := pl.hand.eraseIdx sci.toNat }),
          board := Function.update g0.board base.artist
            (g0.board base.artist + 1) }
        if g1.check_round_end base.artist then g1.end_round
        else
          let g2 := { g1 with
            board := Function.update g1.board base.artist
              (g1.board base.artist + 1) }
          if g2.check_round_end base.artist then g2.end_round
          else
            let effective := if second.auction_type = double then openT
              else second.auction_type
            g2.start_auction p base effective (some second)
      else g0.double_decline_tail p base
    else g0.double_decline_tail p base

/-- `Game.handle_bid`. -/
def handle_bid (g : GameSt) (p : Nat) (amount : Int) : GameSt × List Evt :=
  match g.current_auction with
  | none => (g, [])
  | some au =>
      if amount > (g.getPlayer p).money then (g, [.errE p "Not enough money"])
      else
        let (err, res, au') := au.process_action p .bid amount
        let g1 := { g with current_auction := some au' }
        match err with
        | some e => (g1, [.errE p e])
        | none =>
            match res with
            | some r => g1.resolve_auction r
            | none => (g1, [])

/-- `Game.handle_pass`. -/
def handle_pass (g : GameSt) (p : Nat) : GameSt × List Evt :=
  match g.current_auction with
  | none => (g, [])
  | some au =>
      let (err, res, au') := au.process_action p .passA 0
      let g1 := { g with current_auction := some au' }
      match err with
      | some e => (g1, [.errE p e])
      | none =>
          match res with
          | some r => g1.resolve_auction r
          | none => (g1, [])

/-- `Game.handle_accept`. -/
def handle_accept (g : GameSt) (p : Nat) : GameSt × List Evt :=
  match g.current_auction with
  | none => (g, [])
  | some au =>
      if au.auction_type ≠ fixedPrice then (g, [])
      else if au.fixed_price > (g.getPlayer p).money then
        (g, [.errE p "Not enough money"])
      else
        let (err, res, au') := au.process_action p .accept 0
        let g1 := { g with current_auction := some au' }
        match err with
        | some e => (g1, [.errE p e])
        | none =>
            match res with
            | some r => g1.resolve_auction r
            | none => (g1, [])

/-- `Game.handle_set_price`. -/
def handle_set_price (g : GameSt) (p : Nat) (price : Int) : GameSt × List Evt :=
  match g.current_auction with
  | none => (g, [])
  | some au =>
      if au.auction_type ≠ fixedPrice then (g, [])
      else if p ≠ au.seller_index then (g, [])
      else
        let (err, res, au') := au.process_action p .set_price price
        let g1 := { g with current_auction := some au' }
        match err with
        | some e => (g1, [.errE p e])
        | none =>
            match res with
            | some r => g1.resolve_auction r
            | none => (g1, [])

end GameSt

/-- `Game.start` modulo the random shuffle: the dealt deck is an
arbitrary card list, covering every permutation `shuffle_deck` can
produce.  Every player starts with `STARTING_MONEY`. -/
def startGame (deck : List Card) (n : Nat) : GameSt :=
  let (hands, deck') := deal_cards deck n 1
  { players := (List.range n).map (fun i => { hand := hands.getD i [] }),
    num_players := n, deck := deck', round_num := 1, current_turn := 0,
    round_active := true }

/-- The external entry points a room can receive (from humans via the
lobby or from the AI controller, which calls the same handlers). -/
inductive GAct
  | play (p : Nat) (ci dci : Int)
  | dresp (p : Nat) (sci : Int)
  | bidA (p : Nat) (amount : Int)
  | passG (p : Nat)
  | acceptG (p : Nat)
  | set_priceG (p : Nat) (amount : Int)
deriving DecidableEq, Repr

/-- The acting player of an entry-point invocation. -/
def GAct.actor : GAct → Nat
  | .play p _ _ => p
  | .dresp p _ => p
  | .bidA p _ => p
  | .passG p => p
  | .acceptG p => p
  | .set_priceG p _ => p

/-- Dispatch one entry-point invocation. -/
def applyAct (g : GameSt) : GAct → GameSt × List Evt
  | .play p ci dci => g.handle_play_card p ci dci
  | .dresp p sci => g.handle_double_response p sci
  | .bidA p amount => g.handle_bid p amount
  | .passG p => g.handle_pass p
  | .acceptG p => g.handle_accept p
  | .set_priceG p amount => g.handle_set_price p amount

/-- Reachable states, paired with the cumulative market payout made at
round ends so far.  The lobby only starts games with 3–5 players, and
every relayed action carries the index of a seated player. -/
inductive Reachable : GameSt → Int → Prop
  | init (deck : List Card) (n : Nat) (h3 : 3 ≤ n) (h5 : n ≤ 5) :
      Reachable (startGame deck n) 0
  | step {g : GameSt} {P : Int} (act : GAct)
      (hp : act.actor < g.num_players) (h : Reachable g P) :
      Reachable (applyAct g act).1 (P + payoutOf (applyAct g act).2)

/-! ### ai_player.py (AIBrain bid deciders)

Python floats are modelled as rationals; the random draws
(`random.uniform`, `random.choice`) are explicit parameters ranged over
by the theorems. -/

/-- Python `int(x)`: truncation toward zero. -/
def pyint (q : ℚ) : Int :=
  if 0 ≤ q then ⌊q⌋ else ⌈q⌉

/-- AI difficulty tiers. -/
inductive Difficulty
  | easy
  | normal
  | hard
deriving DecidableEq, Repr

/-- `AIBrain._get_aggression_factor`: difficulty base plus the
`random.uniform(-0.1, 0.1)` draw `u`. -/
def aggression_factor (d : Difficulty) (u : ℚ) : ℚ :=
  (match d with
    | .easy => (6 : ℚ) / 10
    | .normal => (75 : ℚ) / 100
    | .hard => (85 : ℚ) / 100) + u

/-- `AIBrain._estimate_card_value`: simulate the played card(s) onto the
board, rank the artists by resulting count (stable descending sort, so
ties keep the `ARTISTS` order like Python's `sorted`), map rank 0/1/2 to
30000/20000/10000, add the artist's market value, then apply the
uncertainty discount. -/
def estimate_card_value (card : Card) (board : Artist → Nat)
    (market : Artist → Int) (is_double : Bool) : ℚ :=
  let artist := card.artist
  let board_count := board artist
  let current_market := market artist
  let simulated := fun a =>
    if a = artist then board_count + (if is_double then 2 else 1) else board a
  let sorted_artists :=
    List.insertionSort (fun (x y : Artist × Nat) => y.2 ≤ x.2)
      (ARTISTS.map (fun a => (a, simulated a)))
  let rank := ((sorted_artists.map Prod.fst).findIdx? (fun a => a = artist)).getD 4
  let round_value : Int := if rank = 0 then 30000 else if rank = 1 then 20000
    else if rank = 2 then 10000 else 0
  let expected_value : ℚ := (current_market : ℚ) + (round_value : ℚ)
  if board_count ≤ 1 then expected_value * (5 / 10)
  else if board_count ≥ 3 then expected_value * (85 / 100)
  else expected_value

/-- `AIBrain.decide_bid_open`.  `u` is the aggression draw; `incChoice`
is the `random.choice([1000, 2000, 3000, 5000])` draw. -/
def decide_bid_open (d : Difficulty) (card : Card) (current_bid my_money : Int)
    (board : Artist → Nat) (market : Artist → Int) (is_double : Bool)
    (u : ℚ) (incChoice : Int) : Option Int :=
  let max_value := estimate_card_value card board market is_double
  let willingness := max_value * aggression_factor d u
  let willingness := min willingness (my_money : ℚ)
  let min_bid := current_bid + 1000
  if (min_bid : ℚ) > willingness then none
  else
    let bid_increment := if d = .hard then 1000 else incChoice
    let bid := current_bid + bid_increment
    let bid := min bid (pyint willingness)
    let bid := max bid min_bid
    let bid := bid / 1000 * 1000
    if bid > my_money then none
    else some bid

/-- `AIBrain.decide_bid_once_around`.  `u` is the aggression draw, `uf`
the `random.uniform(0.6, 0.9)` draw. -/
def decide_bid_once_around (d : Difficulty) (card : Card)
    (current_bid my_money : Int) (board : Artist → Nat)
    (market : Artist → Int) (is_double : Bool) (u uf : ℚ) : Option Int :=
  let max_value := estimate_card_value card board market is_double
  let willingness := max_value * aggression_factor d u
  let willingness := min willingness (my_money : ℚ)
  let min_bid := max (current_bid + 1000) 1000
  if (min_bid : ℚ) > willingness then none
  else
    let bid := pyint (willingness * uf)
    let bid := max bid min_bid
    let bid := bid / 1000 * 1000
    if bid > my_money then none
    else some bid

/-- `AIBrain.decide_bid_sealed`.  `u` is the aggression draw, `uf` the
`random.uniform(0.4, 0.75)` draw.  A pass is the bid 0. -/
def decide_bid_sealed (d : Difficulty) (card : Card) (my_money : Int)
    (board : Artist → Nat) (market : Artist → Int) (numPlayers : Nat)
    (is_double : Bool) (u uf : ℚ) : Int :=
  let max_value := estimate_card_value card board market is_double
  let willingness := max_value * aggression_factor d u
  let willingness := min willingness (my_money : ℚ)
  if willingness < 1000 then 0
  else
    let bid := pyint (willingness * uf)
    let bid := max bid 1000
    let bid := bid / 1000 * 1000
    if bid > my_money then 0
    else bid

/-! ### Statement vocabulary

Definitions used to state the verified properties (not part of the
source embedding). -/

/-- Total money currently held by the players. -/
def totalMoney (ps : List PlayerSt) : Int :=
  (ps.map (fun p => p.money)).sum

/-- The amount currently escrowed in an unresolved auction.  The engine
debits a balance only inside `_resolve_auction`; while an auction is
unresolved no money has been taken from any player, so the escrowed
amount is identically zero. -/
def auction_escrow (_g : GameSt) : Int := 0

/-- The spec's rank of a positive-count artist at round end: the number
of positive-count artists that strictly precede it (strictly larger
count, or equal count and earlier in the fixed artist priority order). -/
def specRank (board : Artist → Nat) (a : Artist) : Nat :=
  ((ARTISTS.filter (fun b => 0 < board b)).filter
    (fun b => roundSortLT (b, board b) (a, board a))).length

/-- Well-formedness carried by every auction the orchestrator creates:
its player count matches the game's, the seller and every recorded
bidder is a seated player. -/
def AWF (au : Auction) (n : Nat) : Prop :=
  au.num_players = n ∧ au.seller_index < n ∧
  (au.current_bidder = -1 ∨ (0 ≤ au.current_bidder ∧ au.current_bidder < (n : Int))) ∧
  (∀ kv ∈ au.bids, kv.1 < n)

/-- Well-formedness of a game state: the player list has `num_players`
entries and the active auction (if any) is well-formed. -/
def WF (g : GameSt) : Prop :=
  g.players.length = g.num_players ∧
  (∀ au, g.current_auction = some au → AWF au g.num_players)

/-! ### Concrete mid-game fixtures used by the scenario theorems -/

/-- A 4-player mid-round state: P0 to act holding a fixed-price card,
everyone at the starting balance. -/
def fpGame : GameSt :=
  { players := [
      { money := 100000, hand := [⟨1, orangeTarou, fixedPrice⟩,
          ⟨9, redTarou, openT⟩], paintings := [] },
      { money := 100000, hand := [⟨2, blueTarou, openT⟩], paintings := [] },
      { money := 100000, hand := [⟨3, redTarou, sealed⟩], paintings := [] },
      { money := 100000, hand := [⟨4, greenTarou, openT⟩], paintings := [] }],
    num_players := 4, deck := [], round_num := 1, round_active := true }

/-- A 3-player state in which P0's double decision is pending: the
escrowed base card is an Orange double, while P0's hand holds only a
Blue card. -/
def dblGame : GameSt :=
  { players := [
      { money := 100000, hand := [⟨5, blueTarou, onceAround⟩], paintings := [] },
      { money := 100000, hand := [⟨2, blueTarou, openT⟩], paintings := [] },
      { money := 100000, hand := [⟨3, redTarou, sealed⟩], paintings := [] }],
    num_players := 3, deck := [], round_num := 1, round_active := true,
    waiting_for_double := true,
    double_base_card := some ⟨0, orangeTarou, double⟩,
    double_player_index := 0 }

/-- A 3-player round-4 state with P0's double decision pending for
Orange while the Orange board count is already 4 and P0 still holds
another Orange card: `handle_play_card` accepts a further play while the
double is pending, which ends round 4 at Orange count 5, after which the
still-pending double response increments Orange past the cap. -/
def staleDoubleGame : GameSt :=
  { players := [
      { money := 100000, hand := [⟨1, orangeTarou, openT⟩], paintings := [] },
      { money := 100000, hand := [⟨2, blueTarou, openT⟩], paintings := [] },
      { money := 100000, hand := [⟨3, redTarou, sealed⟩], paintings := [] }],
    num_players := 3, deck := [], round_num := 4,
    board := fun a => if a = orangeTarou then 4 else 0,
    round_active := true, waiting_for_double := true,
    double_base_card := some ⟨0, orangeTarou, double⟩,
    double_player_index := 0 }

/-- A 3-player open auction (seller P0) in the position reached after
P1 bid 5000, P2 bid 7000 and P1 passed. -/
def openBidAuction : Auction :=
  { Auction.create openT 0 default 3 with
      current_bidder := 2, current_bid := 7000, bids := [(1, 5000), (2, 7000)],
      passed := [1] }

/-- A 4-player fixed-price auction (seller P0, price 4000) in which P1
and P2 have already declined and the cursor sits on P3. -/
def fpDeclinedAuction : Auction :=
  { Auction.create fixedPrice 0 default 4 with
      state := waitingForAccept, fixed_price := 4000, current_bid := 4000,
      current_turn_index := 3, passed := [1, 2] }

/-! ## Theorems -/

/-- A list of length 1 is `[its first element]`. -/
theorem list_length_one_eq {l : List Nat} (h : l.length = 1) :
    l = [l.getD 0 0] := by
  match l, h with
  | [x], _ => rfl

/-- C4 counterexample: open auction with 3 players and seller P0.  After
P1 passes (with no bid ever placed), at most one eligible non-seller
bidder remains — exactly one, P2 — yet `check_open_resolved` does not
resolve the auction, contradicting "resolves exactly when at most one
eligible non-seller bidder remains". -/
theorem open_resolution_not_at_most_one :
    (((Auction.create .openT 0 default 3).open_pass 1).openActive).length = 1 ∧
    ((((Auction.create .openT 0 default 3).open_pass 1).check_open_resolved).1
      = none) := by
  decide

/-- C4 (amended): an open auction resolves exactly when either no
eligible non-seller bidder remains, or exactly one remains and that
player holds the current positive high bid; at resolution, if no bid was
ever placed the seller receives the card at price 0, otherwise the
current (highest) bidder wins at their bid.  With 3 players and seller
P0, after P1 bids 5000, P2 bids 7000 and P1 passes, the auction resolves
with winner P2 at price 7000. -/
theorem open_auction_resolution (a : Auction) :
    (((a.check_open_resolved).1 ≠ none) ↔
      (a.openActive = [] ∨
        (∃ p, a.openActive = [p] ∧ (p : Int) = a.current_bidder ∧
          0 < a.current_bid))) ∧
    (∀ r, (a.check_open_resolved).1 = some r →
      (a.current_bidder = -1 ∧
        r = ⟨(a.seller_index : Int), 0, a.seller_index⟩) ∨
      (a.current_bidder ≠ -1 ∧
        r = ⟨a.current_bidder, a.current_bid, a.seller_index⟩)) ∧
    (((((Auction.create .openT 0 default 3).process_action 1 .bid
          5000).2.2.process_action 2 .bid
          7000).2.2.process_action 1 .passA 0).2.1
      = some ⟨2, 7000, 0⟩) := by
  refine ⟨?_, ?_, by decide⟩
  · unfold Auction.check_open_resolved
    by_cases hcond : (a.openActive.length = 0 ∨
        (a.openActive.length = 1 ∧ ((a.openActive.getD 0 0 : Nat) : Int) =
          a.current_bidder ∧ 0 < a.current_bid))
    · rw [if_pos hcond]
      constructor
      · intro _
        rcases hcond with h0 | ⟨h1, hb, hpos⟩
        · exact Or.inl (List.length_eq_zero.mp h0)
        · exact Or.inr ⟨a.openActive.getD 0 0, list_length_one_eq h1, hb, hpos⟩
      · intro _
        by_cases hbid : a.current_bidder = -1 <;> simp [hbid]
    · rw [if_neg hcond]
      simp only [ne_eq, not_true_eq_false, false_iff]
      push_neg at hcond ⊢
      refine ⟨?_, ?_⟩
      · intro h0
        exact hcond.1 (by simp [h0])
      · intro p hp hb
        have h1 : a.openActive.length = 1 := by simp [hp]
        have h2 : ((a.openActive.getD 0 0 : Nat) : Int) = a.current_bidder := by
          rw [hp]; simpa using hb
        exact hcond.2 h1 h2
  · intro r hr
    unfold Auction.check_open_resolved at hr
    by_cases hcond : (a.openActive.length = 0 ∨
        (a.openActive.length = 1 ∧ ((a.openActive.getD 0 0 : Nat) : Int) =
          a.current_bidder ∧ 0 < a.current_bid))
    · rw [if_pos hcond] at hr
      by_cases hbid : a.current_bidder = -1
      · rw [if_pos hbid] at hr
        exact Or.inl ⟨hbid, by simpa using hr.symm⟩
      · rw [if_neg hbid] at hr
        exact Or.inr ⟨hbid, by simpa using hr.symm⟩
    · rw [if_neg hcond] at hr
      simp at hr

/-- `w` beats `kv` in the sealed-bid comparison: a strictly higher bid,
or the same bid from a player index that is not larger. -/
def bidBeats (w kv : Nat × Int) : Prop :=
  kv.2 < w.2 ∨ (kv.2 = w.2 ∧ w.1 ≤ kv.1)

theorem bidBeats_refl (w : Nat × Int) : bidBeats w w := by
  simp [bidBeats]

theorem bidBeats_trans {x y z : Nat × Int} (h1 : bidBeats x y)
    (h2 : bidBeats y z) : bidBeats x z := by
  rcases h1 with h | ⟨h, h'⟩ <;> rcases h2 with k | ⟨k, k'⟩ <;>
    simp only [bidBeats] <;> omega

/-- The fold inside `dictMaxByBid` returns an element of the candidates
that beats every candidate. -/
theorem dictMaxByBid_foldl_spec (rest : List (Nat × Int)) :
    ∀ b : Nat × Int,
      ((rest.foldl (fun best x =>
          if best.2 < x.2 ∨ (best.2 = x.2 ∧ x.1 < best.1) then x else best) b)
        = b ∨
       (rest.foldl (fun best x =>
          if best.2 < x.2 ∨ (best.2 = x.2 ∧ x.1 < best.1) then x else best) b)
        ∈ rest) ∧
      (∀ kv, (kv = b ∨ kv ∈ rest) →
        bidBeats (rest.foldl (fun best x =>
          if best.2 < x.2 ∨ (best.2 = x.2 ∧ x.1 < best.1) then x else best) b)
          kv) := by
  induction rest with
  | nil =>
      intro b
      refine ⟨Or.inl rfl, ?_⟩
      intro kv hkv
      rcases hkv with rfl | h
      · exact bidBeats_refl _
      · simp at h
  | cons y t ih =>
      intro b
      simp only [List.foldl_cons]
      set b' := if b.2 < y.2 ∨ (b.2 = y.2 ∧ y.1 < b.1) then y else b with hb'
      have hdomb : bidBeats b' b := by
        rw [hb']; split
        · rename_i hcase
          rcases hcase with h | ⟨h, h'⟩ <;> simp only [bidBeats] <;> omega
        · exact bidBeats_refl b
      have hdomy : bidBeats b' y := by
        rw [hb']; split
        · exact bidBeats_refl y
        · rename_i hcase
          push_neg at hcase
          rcases lt_or_eq_of_le hcase.1 with h | h
          · exact Or.inl h
          · exact Or.inr ⟨h, hcase.2 h.symm⟩
      have hmemb' : b' = y ∨ b' = b := by
        rw [hb']; split
        · exact Or.inl rfl
        · exact Or.inr rfl
      obtain ⟨ihm, ihd⟩ := ih b'
      constructor
      · rcases ihm with h | h
        · rcases hmemb' with h' | h'
          · exact Or.inr (by rw [h, h']; exact List.mem_cons_self y t)
          · exact Or.inl (by rw [h, h'])
        · exact Or.inr (List.mem_cons_of_mem y h)
      · rintro kv (rfl | hkv)
        · exact bidBeats_trans (ihd b' (Or.inl rfl)) hdomb
        · rcases List.mem_cons.mp hkv with rfl | hkv'
          · exact bidBeats_trans (ihd b' (Or.inl rfl)) hdomy
          · exact ihd kv (Or.inr hkv')

/-- `dictMaxByBid` of a non-empty bid dict is one of the bids and beats
every bid: it is the highest bid, with ties broken in favour of the
lowest player index. -/
theorem dictMaxByBid_spec (l : List (Nat × Int)) (hl : l ≠ []) :
    dictMaxByBid l ∈ l ∧ ∀ kv ∈ l, bidBeats (dictMaxByBid l) kv := by
  match l, hl with
  | x :: rest, _ =>
      have heq : dictMaxByBid (x :: rest) =
          rest.foldl (fun best y =>
            if best.2 < y.2 ∨ (best.2 = y.2 ∧ y.1 < best.1) then y else best) x :=
        rfl
      rw [heq]
      obtain ⟨hm, hd⟩ := dictMaxByBid_foldl_spec rest x
      constructor
      · rcases hm with h | h
        · rw [h]; exact List.mem_cons_self x rest
        · exact List.mem_cons_of_mem x h
      · intro kv hkv
        rcases List.mem_cons.mp hkv with rfl | hkv'
        · exact hd kv (Or.inl rfl)
        · exact hd kv (Or.inr hkv')

/-- C5: a sealed auction resolves exactly once all `num_players − 1`
non-seller bids are in (a pass is recorded as a bid of 0 and counts); at
resolution the highest bid wins with ties broken in favour of the lowest
player index, and if the maximum bid is 0 (or no bid exists) the seller
acquires at price 0.  With 4 players, seller P0 and bids
P1:3000, P2:3000, P3:0, the winner is P1 at price 3000. -/
theorem sealed_auction_resolution (a : Auction) :
    (((a.check_sealed_resolved).1 ≠ none) ↔
      a.num_players - 1 ≤ a.sealed_bids_received) ∧
    (∀ p, p ≠ a.seller_index → dictHas a.bids p = false →
      (p, 0) ∈ (a.sealed_pass p).bids ∧
      (a.sealed_pass p).sealed_bids_received = a.sealed_bids_received + 1) ∧
    (∀ r, (a.check_sealed_resolved).1 = some r →
      ((a.bids = [] ∨ dictMaxVal a.bids = 0) ∧
        r = ⟨(a.seller_index : Int), 0, a.seller_index⟩) ∨
      (∃ w ∈ a.bids, r = ⟨(w.1 : Int), w.2, a.seller_index⟩ ∧
        ∀ kv ∈ a.bids, bidBeats w kv)) ∧
    (((((Auction.create .sealed 0 default 4).process_action 1 .bid
          3000).2.2.process_action 2 .bid
          3000).2.2.process_action 3 .bid 0).2.1
      = some ⟨1, 3000, 0⟩) := by
  refine ⟨?_, ?_, ?_, by decide⟩
  · unfold Auction.check_sealed_resolved
    by_cases hc : a.sealed_bids_received ≥ a.num_players - 1
    · rw [if_pos hc]
      constructor
      · intro _; exact hc
      · intro _
        by_cases hb : (a.bids = [] ∨ dictMaxVal a.bids = 0) <;> simp [hb]
    · rw [if_neg hc]
      simp only [ne_eq, not_true_eq_false, false_iff]
      exact hc
  · intro p hps hh
    have hh' : (a.bids.any fun kv => kv.1 = p) = false := hh
    unfold Auction.sealed_pass
    rw [if_pos ⟨by simp [hh], hps⟩]
    refine ⟨?_, rfl⟩
    unfold dictSet
    rw [if_neg (by simp [hh'])]
    simp
  · intro r hr
    unfold Auction.check_sealed_resolved at hr
    by_cases hc : a.sealed_bids_received ≥ a.num_players - 1
    · rw [if_pos hc] at hr
      by_cases hb : (a.bids = [] ∨ dictMaxVal a.bids = 0)
      · rw [if_pos hb] at hr
        exact Or.inl ⟨hb, by simpa using hr.symm⟩
      · rw [if_neg hb] at hr
        push_neg at hb
        obtain ⟨hmem, hbeats⟩ := dictMaxByBid_spec a.bids hb.1
        exact Or.inr ⟨dictMaxByBid a.bids, hmem, by simpa using hr.symm, hbeats⟩
    · rw [if_neg hc] at hr
      simp at hr

/-- C6 counterexample: open auction, 3 players, seller P0.  After P1
passes, P1's later bid of 5000 is accepted (no error) and changes the
auction state; moreover, after P1 bids 5000, then passes, and P2 also
passes, the auction resolves with the passed player P1 as winner —
contradicting "once a player has passed ... any later bid from that
player is rejected without changing the auction state, and a player who
has passed can never be the resolved winner". -/
theorem open_pass_still_bids_counterexample :
    ((((Auction.create .openT 0 default 3).process_action 1 .passA
        0).2.2.process_action 1 .bid 5000).1 = none) ∧
    ((((Auction.create .openT 0 default 3).process_action 1 .passA
        0).2.2.process_action 1 .bid 5000).2.2.current_bid = 5000) ∧
    (((((Auction.create .openT 0 default 3).process_action 1 .bid
        5000).2.2.process_action 1 .passA 0).2.2.process_action 2 .passA
        0).2.1 = some ⟨1, 5000, 0⟩) := by
  decide

/-- C6 (amended): in an open auction, passing removes the player only
from the remaining-active-bidders list consulted by the resolution
check; the bid validator does not consult the pass set, so a bid from a
passed non-seller that beats the current bid and is a multiple of 1000
is accepted and updates the auction (the pass set itself unchanged), and
a passed player who holds the current high bid can still be the
resolved winner (concretely: P1 bids 5000, P1 passes, P2 passes — P1,
already in the pass set, wins at 5000). -/
theorem open_pass_only_blocks_resolution_count (a : Auction) (p : Nat)
    (amt : Int) :
    (p ∈ (a.open_pass p).passed ∧ ¬ p ∈ (a.open_pass p).openActive) ∧
    (a.auction_type = .openT → p ≠ a.seller_index → a.current_bid < amt →
      amt % 1000 = 0 →
      (a.open_bid p amt).1 = none ∧
      (a.open_bid p amt).2.current_bidder = (p : Int) ∧
      (a.open_bid p amt).2.current_bid = amt ∧
      (a.open_bid p amt).2.passed = a.passed) ∧
    ((1 ∈ ((((Auction.create .openT 0 default 3).process_action 1 .bid
        5000).2.2.process_action 1 .passA 0).2.2).passed) ∧
      (((((Auction.create .openT 0 default 3).process_action 1 .bid
        5000).2.2.process_action 1 .passA 0).2.2.process_action 2 .passA
        0).2.1 = some ⟨1, 5000, 0⟩)) := by
  refine ⟨⟨?_, ?_⟩, ?_, by decide⟩
  · unfold Auction.open_pass
    split
    · rename_i h; exact h
    · simp
  · unfold Auction.openActive Auction.open_pass
    intro hmem
    have hp : p ∈ (if p ∈ a.passed then a
        else { a with passed := a.passed ++ [p] }).passed := by
      split
      · rename_i h; exact h
      · simp
    rcases List.mem_filter.mp hmem with ⟨_, hcond⟩
    simp only [decide_eq_true_eq] at hcond
    exact hcond.2 hp
  · intro ht hps hlt hmod
    unfold Auction.open_bid
    rw [if_neg (by simp [ht]), if_neg (by simpa using hps),
      if_neg (by omega), if_neg (by simp [hmod])]
    exact ⟨rfl, rfl, rfl, rfl⟩

/-- If `open_bid` reports an error, the auction is unchanged. -/
theorem open_bid_error_no_change (a : Auction) (p : Nat) (amt : Int)
    (e : String) (h : (a.open_bid p amt).1 = some e) :
    (a.open_bid p amt).2 = a := by
  unfold Auction.open_bid at *
  split_ifs at h ⊢ <;> first | rfl | simp at h

/-- If `once_around_bid` reports an error, the auction is unchanged. -/
theorem once_around_bid_error_no_change (a : Auction) (p : Nat) (amt : Int)
    (e : String) (h : (a.once_around_bid p amt).1 = some e) :
    (a.once_around_bid p amt).2 = a := by
  unfold Auction.once_around_bid at *
  split_ifs at h ⊢ <;> first | rfl | simp at h

/-- If `sealed_bid` reports an error, the auction is unchanged. -/
theorem sealed_bid_error_no_change (a : Auction) (p : Nat) (amt : Int)
    (e : String) (h : (a.sealed_bid p amt).1 = some e) :
    (a.sealed_bid p amt).2 = a := by
  unfold Auction.sealed_bid at *
  split_ifs at h ⊢ <;> first | rfl | simp at h

/-- If `set_fixed_price` reports an error, the auction is unchanged. -/
theorem set_fixed_price_error_no_change (a : Auction) (amt : Int)
    (e : String) (h : (a.set_fixed_price amt).1 = some e) :
    (a.set_fixed_price amt).2 = a := by
  unfold Auction.set_fixed_price at *
  split_ifs at h ⊢ <;> first | rfl | simp at h

/-- `stepThenCheck` propagates the validator's error verbatim. -/
theorem stepThenCheck_fst (s : Option String × Auction)
    (c : Auction → Option AuctionResult × Auction) :
    (stepThenCheck s c).1 = s.1 := by
  rcases s with ⟨e, a'⟩
  cases e <;> rfl

/-- `open_bid` fails exactly when the bidder is the seller, the amount is
not strictly above the current bid, or the amount is not a multiple of
1000 — and for nothing else (in particular the pass set is never
consulted). -/
theorem open_bid_error_iff (a : Auction) (p : Nat) (amt : Int)
    (ht : a.auction_type = .openT) :
    ((a.open_bid p amt).1 ≠ none) ↔
      (p = a.seller_index ∨ amt ≤ a.current_bid ∨ amt % 1000 ≠ 0) := by
  unfold Auction.open_bid
  rw [if_neg (by simp [ht])]
  split_ifs with h1 h2 h3
  · simp [h1]
  · simp [h2]
  · simp [h3]
  · simp [h1, h2, h3]

/-- `once_around_bid` fails exactly when the actor is not the turn
cursor, the amount is not strictly above the current bid, or the amount
is not a multiple of 1000. -/
theorem once_around_bid_error_iff (a : Auction) (p : Nat) (amt : Int) :
    ((a.once_around_bid p amt).1 ≠ none) ↔
      ((p : Int) ≠ a.current_turn_index ∨ amt ≤ a.current_bid ∨
        amt % 1000 ≠ 0) := by
  unfold Auction.once_around_bid
  split_ifs with h1 h2 h3
  · simp [h1]
  · simp [h2]
  · simp [h3]
  · simp [h1, h2, h3]

/-- `sealed_bid` fails exactly when the actor is the seller, has already
submitted a bid, bids a negative amount, or bids a non-multiple of
1000. -/
theorem sealed_bid_error_iff (a : Auction) (p : Nat) (amt : Int) :
    ((a.sealed_bid p amt).1 ≠ none) ↔
      (p = a.seller_index ∨ dictHas a.bids p = true ∨ amt < 0 ∨
        amt % 1000 ≠ 0) := by
  unfold Auction.sealed_bid
  split_ifs with h1 h2 h3 h4
  · simp [h1]
  · simp [h2]
  · simp [h3]
  · simp [h4]
  · simp [h1, h2, h3, h4]

/-- `set_fixed_price` fails exactly when the auction is not awaiting a
price, the price is non-positive, or the price is not a multiple of 1000
— it performs no actor check at all. -/
theorem set_fixed_price_error_iff (a : Auction) (price : Int) :
    ((a.set_fixed_price price).1 ≠ none) ↔
      (a.state ≠ waitingForPrice ∨ price ≤ 0 ∨ price % 1000 ≠ 0) := by
  unfold Auction.set_fixed_price
  split_ifs with h1 h2 h3
  · simp [h1]
  · simp [h2]
  · simp [h3]
  · simp [h1, h2, h3]

/-- C3 counterexample: once-around auction, 3 players, seller P0, turn
cursor on P1.  A pass sent by P2 — an ineligible, wrong-turn actor — is
processed with no failure, records P2 in the pass set, moves the cursor,
and even resolves the whole auction (seller receives the card at 0),
contradicting "if the action is illegal ... processing it returns a
descriptive failure and performs no state change". -/
theorem wrong_turn_pass_mutates_counterexample :
    ((((Auction.create .onceAround 0 default 3).start_once_around).process_action
        2 .passA 0).1 = none) ∧
    ((((Auction.create .onceAround 0 default 3).start_once_around).process_action
        2 .passA 0).2.2.passed = [2]) ∧
    ((((Auction.create .onceAround 0 default 3).start_once_around).process_action
        2 .passA 0).2.1 = some ⟨0, 0, 0⟩) := by
  decide

/-- C3 (amended): the auction layer validates only `bid` and `set_price`
actions, and for those the validation is exactly characterized and
precedes mutation.  Processing reports a failure precisely when one of
the code's own checks trips — open bid: the bidder is the seller, the
amount is not strictly above the current bid, or not a multiple of 1000
(the pass set is not consulted, so a passed player's bid is not
rejected); once-around bid: the actor is not the turn cursor, the amount
is not strictly above the current bid, or not a multiple of 1000; sealed
bid: the actor is the seller, already bid, a negative amount, or not a
multiple of 1000; set_price: the auction is not awaiting a price, the
price is non-positive, or not a multiple of 1000 (no actor check).
Every reported failure leaves the auction exactly as before and produces
no resolution.  `pass`/`decline`/`accept` are never validated and never
produce a failure (a wrong-turn pass mutates state, as the
counterexample shows); an `accept` from a non-cursor actor is silently
ignored with neither failure nor state change; and at the game layer a
`set_price` from a non-seller is silently dropped — no failure event, no
state change. -/
theorem auction_validation_precedes_mutation (a : Auction) (p : Nat)
    (amt : Int) :
    (a.auction_type = .openT →
      (((a.process_action p .bid amt).1 ≠ none) ↔
        (p = a.seller_index ∨ amt ≤ a.current_bid ∨ amt % 1000 ≠ 0))) ∧
    (a.auction_type = .onceAround →
      (((a.process_action p .bid amt).1 ≠ none) ↔
        ((p : Int) ≠ a.current_turn_index ∨ amt ≤ a.current_bid ∨
          amt % 1000 ≠ 0))) ∧
    (a.auction_type = .sealed →
      (((a.process_action p .bid amt).1 ≠ none) ↔
        (p = a.seller_index ∨ dictHas a.bids p = true ∨ amt < 0 ∨
          amt % 1000 ≠ 0))) ∧
    (a.auction_type = .fixedPrice →
      (((a.process_action p .set_price amt).1 ≠ none) ↔
        (a.state ≠ waitingForPrice ∨ amt ≤ 0 ∨ amt % 1000 ≠ 0))) ∧
    (∀ act e, (a.process_action p act amt).1 = some e →
      (a.process_action p act amt).2.2 = a ∧
      (a.process_action p act amt).2.1 = none) ∧
    ((a.process_action p .passA amt).1 = none ∧
      (a.process_action p .decline amt).1 = none ∧
      (a.process_action p .accept amt).1 = none) ∧
    (a.auction_type = .fixedPrice → (p : Int) ≠ a.current_turn_index →
      a.process_action p .accept amt = (none, none, a)) ∧
    (∀ g : GameSt, g.current_auction = some a →
      a.auction_type = .fixedPrice → p ≠ a.seller_index →
      g.handle_set_price p amt = (g, [])) := by
  refine ⟨?_, ?_, ?_, ?_, ?_, ⟨?_, ?_, ?_⟩, ?_, ?_⟩
  · intro ht
    simp only [Auction.process_action, ht]
    rw [stepThenCheck_fst]
    exact open_bid_error_iff a p amt ht
  · intro ht
    simp only [Auction.process_action, ht]
    rw [stepThenCheck_fst]
    exact once_around_bid_error_iff a p amt
  · intro ht
    simp only [Auction.process_action, ht]
    rw [stepThenCheck_fst]
    exact sealed_bid_error_iff a p amt
  · intro ht
    simp only [Auction.process_action, ht]
    rw [stepThenCheck_fst]
    exact set_fixed_price_error_iff a amt
  · intro act e he
    cases act
    case bid =>
      cases ht : a.auction_type <;>
        simp only [Auction.process_action, ht] at he ⊢
      · rcases hob : a.open_bid p amt with ⟨err, a'⟩
        rcases err with _ | msg
        · rw [hob] at he; simp [stepThenCheck] at he
        · have h2 : a' = a := by
            have h3 := open_bid_error_no_change a p amt msg (by rw [hob])
            rw [hob] at h3; exact h3
          simp [stepThenCheck, h2]
      · rcases hob : a.once_around_bid p amt with ⟨err, a'⟩
        rcases err with _ | msg
        · rw [hob] at he; simp [stepThenCheck] at he
        · have h2 : a' = a := by
            have h3 := once_around_bid_error_no_change a p amt msg (by rw [hob])
            rw [hob] at h3; exact h3
          simp [stepThenCheck, h2]
      · rcases hob : a.sealed_bid p amt with ⟨err, a'⟩
        rcases err with _ | msg
        · rw [hob] at he; simp [stepThenCheck] at he
        · have h2 : a' = a := by
            have h3 := sealed_bid_error_no_change a p amt msg (by rw [hob])
            rw [hob] at h3; exact h3
          simp [stepThenCheck, h2]
      · simp at he
      · simp at he
    case passA =>
      cases ht : a.auction_type <;>
        simp only [Auction.process_action, ht] at he <;>
        simp [passThenCheck] at he
    case decline =>
      cases ht : a.auction_type <;>
        simp only [Auction.process_action, ht] at he <;>
        simp [passThenCheck] at he
    case accept =>
      cases ht : a.auction_type <;>
        simp only [Auction.process_action, ht] at he <;>
        simp at he
    case set_price =>
      cases ht : a.auction_type <;>
        simp only [Auction.process_action, ht] at he ⊢
      · simp at he
      · simp at he
      · simp at he
      · rcases hob : a.set_fixed_price amt with ⟨err, a'⟩
        rcases err with _ | msg
        · rw [hob] at he; simp [stepThenCheck] at he
        · have h2 : a' = a := by
            have h3 := set_fixed_price_error_no_change a amt msg (by rw [hob])
            rw [hob] at h3; exact h3
          simp [stepThenCheck, h2]
      · simp at he
  · cases ht : a.auction_type <;>
      simp only [Auction.process_action, ht] <;>
      simp [passThenCheck]
  · cases ht : a.auction_type <;>
      simp only [Auction.process_action, ht] <;>
      simp [passThenCheck]
  · cases ht : a.auction_type <;>
      simp only [Auction.process_action, ht] <;>
      simp
  · intro ht hturn
    simp only [Auction.process_action, ht]
    unfold Auction.fixed_price_accept
    rw [if_pos hturn]
  · intro g hau ht hps
    simp only [GameSt.handle_set_price, hau]
    rw [if_neg (by simp [ht]), if_pos hps]

/-! ### Money bookkeeping helpers -/

/-- A `mapIdx` whose body never changes `money` leaves the money column
unchanged. -/
theorem map_money_mapIdx (ps : List PlayerSt) (g : Nat → PlayerSt → PlayerSt)
    (hg : ∀ i p, (g i p).money = p.money) :
    (ps.mapIdx g).map (fun p => p.money) = ps.map (fun p => p.money) := by
  rw [List.mapIdx_eq_enum_map, List.map_map]
  conv_rhs => rw [← List.enum_map_snd ps, List.map_map]
  exact List.map_congr_left (fun x _ => hg x.1 x.2)

/-- `updPlayer` with a money-preserving update leaves the money column
unchanged. -/
theorem map_money_updPlayer (ps : List PlayerSt) (i : Int)
    (f : PlayerSt → PlayerSt) (hf : ∀ p, (f p).money = p.money) :
    (GameSt.updPlayer ps i f).map (fun p => p.money) =
      ps.map (fun p => p.money) := by
  unfold GameSt.updPlayer
  apply map_money_mapIdx
  intro k p
  by_cases h : (k : Int) = if i < 0 then i + (ps.length : Int) else i
  · rw [if_pos h]; exact hf p
  · rw [if_neg h]

theorem totalMoney_updPlayer (ps : List PlayerSt) (i : Int)
    (f : PlayerSt → PlayerSt) (hf : ∀ p, (f p).money = p.money) :
    totalMoney (GameSt.updPlayer ps i f) = totalMoney ps := by
  unfold totalMoney
  rw [map_money_updPlayer ps i f hf]

theorem updPlayer_length (ps : List PlayerSt) (i : Int)
    (f : PlayerSt → PlayerSt) :
    (GameSt.updPlayer ps i f).length = ps.length := by
  simp [GameSt.updPlayer]

/-- For a non-negative in-range index, `updPlayer` is a `List.set`. -/
theorem updPlayer_eq_set (ps : List PlayerSt) (i : Int)
    (f : PlayerSt → PlayerSt) (h0 : 0 ≤ i) (hlt : i < (ps.length : Int)) :
    GameSt.updPlayer ps i f = ps.set i.toNat (f (ps.getD i.toNat default)) := by
  have hnneg : ¬ i < 0 := not_lt.mpr h0
  have htn : i.toNat < ps.length := by omega
  apply List.ext_getElem (by simp [GameSt.updPlayer])
  intro n h1 h2
  simp only [GameSt.updPlayer, if_neg hnneg, List.getElem_mapIdx]
  rw [List.getElem_set]
  by_cases hn : i.toNat = n
  · rw [if_pos hn, if_pos (by omega)]
    rw [List.getD_eq_getElem ps default htn]
    subst hn
    rfl
  · rw [if_neg hn, if_neg (by omega)]

/-- Summing the money column after a `List.set`. -/
theorem totalMoney_set (ps : List PlayerSt) (n : Nat) (q : PlayerSt)
    (hn : n < ps.length) :
    totalMoney (ps.set n q) =
      totalMoney ps + q.money - (ps.getD n default).money := by
  unfold totalMoney
  rw [List.map_set, List.sum_set]
  have hmap : n < (ps.map (fun p => p.money)).length := by simpa using hn
  rw [if_pos hmap]
  have hsplit : (ps.map (fun p => p.money)).sum =
      ((ps.map (fun p => p.money)).take n).sum +
        ((ps.map (fun p => p.money)).drop n).sum := by
    rw [← List.sum_append, List.take_append_drop]
  have hdrop : (ps.map (fun p => p.money)).drop n =
      (ps.map (fun p => p.money))[n] ::
        (ps.map (fun p => p.money)).drop (n + 1) :=
    List.drop_eq_getElem_cons hmap
  have hget : (ps.map (fun p => p.money))[n] = (ps.getD n default).money := by
    rw [List.getD_eq_getElem ps default hn]
    simp
  rw [hdrop, List.sum_cons, hget] at hsplit
  omega

/-- Money change of a single in-range money adjustment. -/
theorem totalMoney_updPlayer_add (ps : List PlayerSt) (i : Int) (d : Int)
    (h0 : 0 ≤ i) (hlt : i < (ps.length : Int)) :
    totalMoney (GameSt.updPlayer ps i
        (fun p => { p with money := p.money + d })) = totalMoney ps + d := by
  rw [updPlayer_eq_set _ _ _ h0 hlt]
  rw [totalMoney_set _ _ _ (by omega)]
  simp
  omega

/-- Paying every player an earning and clearing the paintings pile adds
exactly the summed earnings to the money total. -/
theorem totalMoney_map_pay (ps : List PlayerSt) (e : PlayerSt → Int) :
    totalMoney (ps.map (fun p =>
      { p with money := p.money + e p, paintings := [] })) =
      totalMoney ps + (ps.map e).sum := by
  unfold totalMoney
  rw [List.map_map]
  have hcomp : ((fun p => p.money) ∘ fun p =>
      ({ p with money := p.money + e p, paintings := [] } : PlayerSt)) =
      fun p => p.money + e p := rfl
  rw [hcomp, List.sum_map_add]

/-- `end_round` pays the recorded payout into balances: total money grows
by exactly the payout event it emits. -/
theorem end_round_money (g : GameSt) :
    totalMoney (g.end_round).1.players =
      totalMoney g.players + payoutOf (g.end_round).2 ∧
    (g.end_round).1.players.length = g.players.length ∧
    (g.end_round).1.current_auction = g.current_auction := by
  unfold GameSt.end_round
  dsimp only
  split
  · refine ⟨?_, ?_, ?_⟩
    · simp only [GameSt.end_game, payoutOf, List.map_cons, List.map_nil,
        List.sum_cons, List.sum_nil]
      rw [totalMoney_map_pay]
      ring
    · simp [GameSt.end_game]
    · simp [GameSt.end_game]
  · refine ⟨?_, ?_, ?_⟩
    · simp only [payoutOf, List.map_cons, List.map_nil, List.sum_cons,
        List.sum_nil]
      unfold totalMoney
      have hmi : ∀ ps : List PlayerSt,
          (List.mapIdx (fun i p =>
            { p with hand := p.hand ++ (deal_cards g.deck g.num_players
                (g.round_num + 1)).1.getD i [] }) ps).map
            (fun p => p.money) = ps.map (fun p => p.money) :=
        fun ps => map_money_mapIdx ps _ (fun _ _ => rfl)
      rw [hmi]
      have hpay := totalMoney_map_pay g.players (fun p =>
        (p.paintings.map (fun c =>
          g.market c.artist + calculate_round_values g.board c.artist)).sum)
      unfold totalMoney at hpay
      rw [hpay]
      ring
    · simp
    · simp

/-- `advance_turn` changes total money only by the payout it emits. -/
theorem advance_turn_money (g : GameSt) :
    totalMoney (g.advance_turn).1.players =
      totalMoney g.players + payoutOf (g.advance_turn).2 ∧
    (g.advance_turn).1.players.length = g.players.length := by
  unfold GameSt.advance_turn
  split
  · obtain ⟨h1, h2, _⟩ := end_round_money g
    exact ⟨h1, h2⟩
  · simp [payoutOf]

/-- Money change of a single in-range update with a fixed money delta. -/
theorem totalMoney_updPlayer_delta (ps : List PlayerSt) (i : Int)
    (f : PlayerSt → PlayerSt) (d : Int) (hf : ∀ p, (f p).money = p.money + d)
    (h0 : 0 ≤ i) (hlt : i < (ps.length : Int)) :
    totalMoney (GameSt.updPlayer ps i f) = totalMoney ps + d := by
  rw [updPlayer_eq_set _ _ _ h0 hlt]
  rw [totalMoney_set _ _ _ (by omega)]
  rw [hf]
  ring

/-- `resolve_auction` conserves money up to the payout events it emits:
the price transfer is zero-sum (and skipped entirely for a seller
self-purchase). -/
theorem resolve_auction_money (g : GameSt) (r : AuctionResult)
    (hs : r.seller_index < g.players.length)
    (hw : r.winner_index ≠ (r.seller_index : Int) →
      0 ≤ r.winner_index ∧ r.winner_index < (g.players.length : Int)) :
    totalMoney (g.resolve_auction r).1.players =
      totalMoney g.players + payoutOf (g.resolve_auction r).2 ∧
    (g.resolve_auction r).1.players.length = g.players.length := by
  unfold GameSt.resolve_auction
  dsimp only
  set ps := if r.winner_index ≠ (r.seller_index : Int) then
      GameSt.updPlayer (GameSt.updPlayer g.players r.winner_index
          (fun p => { p with money := p.money - r.price }))
        (r.seller_index : Int) (fun p => { p with money := p.money + r.price })
    else g.players with hps
  have hlen : ps.length = g.players.length := by
    rw [hps]; split <;> simp [updPlayer_length]
  have hmoney : totalMoney ps = totalMoney g.players := by
    rw [hps]
    split
    · rename_i hne
      obtain ⟨hw0, hwlt⟩ := hw hne
      have h1 := totalMoney_updPlayer_delta g.players r.winner_index
        (fun p => { p with money := p.money - r.price }) (-r.price)
        (fun p => by dsimp only; ring) hw0 hwlt
      have h2 := totalMoney_updPlayer_delta
        (GameSt.updPlayer g.players r.winner_index
          (fun p => { p with money := p.money - r.price }))
        (r.seller_index : Int)
        (fun p => { p with money := p.money + r.price }) r.price
        (fun p => rfl) (by positivity)
        (by rw [updPlayer_length]; exact_mod_cast hs)
      rw [h2, h1]
      ring
    · rfl
  set ps' := GameSt.updPlayer ps r.winner_index
    (fun p => { p with paintings := p.paintings ++ [g.auctionCard] }) with hps'
  have hlen' : ps'.length = g.players.length := by
    rw [hps', updPlayer_length, hlen]
  have hmoney' : totalMoney ps' = totalMoney g.players := by
    rw [hps', totalMoney_updPlayer ps r.winner_index
      (fun p => { p with paintings := p.paintings ++ [g.auctionCard] })
      (fun p => rfl), hmoney]
  obtain ⟨ha1, ha2⟩ := advance_turn_money
    { g with players := ps', current_auction := none }
  constructor
  · rw [ha1, hmoney']
  · rw [ha2]
    exact hlen'

/-- A `mapIdx` preserving a projection leaves that column unchanged. -/
theorem map_proj_mapIdx {β : Type} (proj : PlayerSt → β) (ps : List PlayerSt)
    (g : Nat → PlayerSt → PlayerSt) (hg : ∀ i p, proj (g i p) = proj p) :
    (ps.mapIdx g).map proj = ps.map proj := by
  rw [List.mapIdx_eq_enum_map, List.map_map]
  conv_rhs => rw [← List.enum_map_snd ps, List.map_map]
  exact List.map_congr_left (fun x _ => hg x.1 x.2)

/-- `updPlayer` with a projection-preserving update leaves that column
unchanged. -/
theorem map_proj_updPlayer {β : Type} (proj : PlayerSt → β)
    (ps : List PlayerSt) (i : Int) (f : PlayerSt → PlayerSt)
    (hf : ∀ p, proj (f p) = proj p) :
    (GameSt.updPlayer ps i f).map proj = ps.map proj := by
  unfold GameSt.updPlayer
  apply map_proj_mapIdx
  intro k p
  by_cases h : (k : Int) = if i < 0 then i + (ps.length : Int) else i
  · rw [if_pos h]; exact hf p
  · rw [if_neg h]

/-- A `mapIdx` preserving a Boolean test leaves `List.any` unchanged. -/
theorem any_mapIdx (q : PlayerSt → Bool) (ps : List PlayerSt)
    (g : Nat → PlayerSt → PlayerSt) (hg : ∀ i p, q (g i p) = q p) :
    (ps.mapIdx g).any q = ps.any q := by
  induction ps generalizing g with
  | nil => rfl
  | cons x t ih =>
      rw [List.mapIdx_cons, List.any_cons, List.any_cons, hg,
        ih (fun i => g (i + 1)) (fun i p => hg (i + 1) p)]

/-- `updPlayer` with an update preserving a Boolean test leaves
`List.any` unchanged. -/
theorem any_updPlayer (q : PlayerSt → Bool) (ps : List PlayerSt) (i : Int)
    (f : PlayerSt → PlayerSt) (hf : ∀ p, q (f p) = q p) :
    (GameSt.updPlayer ps i f).any q = ps.any q := by
  unfold GameSt.updPlayer
  apply any_mapIdx
  intro k p
  by_cases h : (k : Int) = if i < 0 then i + (ps.length : Int) else i
  · rw [if_pos h]; exact hf p
  · rw [if_neg h]

/-- If every non-seller has passed, the clockwise scan from a seated
player finds either the seller or nobody. -/
theorem get_next_player_all_nonsellers_passed (a : Auction) (p : Nat)
    (hp : p < a.num_players)
    (hall : ∀ q, q < a.num_players → q ≠ a.seller_index → q ∈ a.passed) :
    a.get_next_player p = (a.seller_index : Int) ∨
      a.get_next_player p = -1 := by
  unfold Auction.get_next_player
  rcases hf : (((List.range (a.num_players - 1)).map
      (fun i => (p + i + 1) % a.num_players)).find?
      (fun idx => ¬ idx ∈ a.passed)) with _ | idx
  · exact Or.inr rfl
  · have hpred := List.find?_some hf
    have hmem := List.mem_of_find?_eq_some hf
    simp only [List.mem_map, List.mem_range] at hmem
    obtain ⟨i, _, hidx⟩ := hmem
    have hlt : idx < a.num_players := by
      rw [← hidx]; exact Nat.mod_lt _ (by omega)
    have hnp : ¬ idx ∈ a.passed := by simpa using hpred
    by_cases hsel : idx = a.seller_index
    · exact Or.inl (by simp [hsel])
    · exact absurd (hall idx hlt hsel) hnp

/-- C7: in a fixed-price auction waiting for accepts, once every
non-seller has declined (the current decliner included), processing that
decline resolves the auction with the seller as winner at the seller's
own asking price; resolving any auction whose winner is its seller
transfers no money (every balance, the seller's included, is unchanged);
and concretely, with 4 players and a price of 4000, three declines in
turn resolve the auction as a self-purchase with all balances still at
100000. -/
theorem fixed_price_self_purchase (a : Auction) (p : Nat) (g : GameSt)
    (r : AuctionResult) :
    (a.auction_type = .fixedPrice → a.state = .waitingForAccept →
      p < a.num_players →
      (∀ q, q < a.num_players → q ≠ a.seller_index → q ∈ a.passed ∨ q = p) →
      (a.process_action p .passA 0).2.1 =
        some ⟨(a.seller_index : Int), a.fixed_price, a.seller_index⟩) ∧
    (r.winner_index = (r.seller_index : Int) →
      (g.players.any (fun pl => pl.hand.length > 0)) = true →
      (g.resolve_auction r).1.players.map (fun pl => pl.money) =
        g.players.map (fun pl => pl.money)) ∧
    (((((((fpGame.handle_play_card 0 0 (-1)).1.handle_set_price 0
        4000).1.handle_pass 1).1.handle_pass 2).1.handle_pass 3).1).current_auction
      = none ∧
     ((((((fpGame.handle_play_card 0 0 (-1)).1.handle_set_price 0
        4000).1.handle_pass 1).1.handle_pass 2).1.handle_pass 3).1).players.map
        (fun pl => pl.money) = [100000, 100000, 100000, 100000]) := by
  refine ⟨?_, ?_, by decide⟩
  · intro ht hst hp hall
    simp only [Auction.process_action, ht]
    simp only [passThenCheck]
    set a2 := (if p ∈ a.passed then a
      else { a with passed := a.passed ++ [p] }) with ha2
    have h2passed : ∀ q, q < a.num_players → q ≠ a.seller_index →
        q ∈ a2.passed := by
      intro q hq hqs
      rcases hall q hq hqs with hmem | rfl
      · rw [ha2]; split <;> simp [hmem]
      · rw [ha2]; split
        · rename_i h; exact h
        · simp
    have hnum : a2.num_players = a.num_players := by rw [ha2]; split <;> rfl
    have hsell : a2.seller_index = a.seller_index := by rw [ha2]; split <;> rfl
    have hfp : a2.fixed_price = a.fixed_price := by rw [ha2]; split <;> rfl
    have hst2 : a2.state = a.state := by rw [ha2]; split <;> rfl
    have hcur := get_next_player_all_nonsellers_passed a2 p
      (by rw [hnum]; exact hp)
      (by intro q hq hqs; rw [hnum] at hq; rw [hsell] at hqs
          exact h2passed q hq hqs)
    have hdec : a.fixed_price_decline p =
        { a2 with current_turn_index := a2.get_next_player p } := by
      rw [ha2]; rfl
    rw [hdec]
    unfold Auction.check_fixed_price_resolved
    rw [if_neg (by simp [hst2, hst])]
    rw [if_pos (by rcases hcur with h | h
                   · exact Or.inr (by simp [h, hsell])
                   · exact Or.inl (by simp [h]))]
    simp [hsell, hfp]
  · intro hws hhands
    unfold GameSt.resolve_auction
    dsimp only
    rw [if_neg (by simpa using hws)]
    unfold GameSt.advance_turn
    have hany : ((GameSt.updPlayer g.players r.winner_index
        (fun pl => { pl with paintings := pl.paintings ++ [g.auctionCard] })).any
          (fun pl => pl.hand.length > 0)) = true := by
      rw [any_updPlayer (fun pl => pl.hand.length > 0) g.players
        r.winner_index
        (fun pl => { pl with paintings := pl.paintings ++ [g.auctionCard] })
        (fun pl => rfl)]
      exact hhands
    rw [if_neg (by simp [hany])]
    dsimp only
    exact map_proj_updPlayer (fun pl => pl.money) g.players r.winner_index
      (fun pl => { pl with paintings := pl.paintings ++ [g.auctionCard] })
      (fun pl => rfl)

/-- `end_round` never emits an error event. -/
theorem end_round_no_error (g : GameSt) :
    hasError (g.end_round).2 = false := by
  unfold GameSt.end_round
  dsimp only
  split <;> simp [GameSt.end_game, hasError]

/-- An accepted double response (pending, right player) that names no
valid in-range index reduces to the shared decline tail. -/
theorem handle_double_response_decline (g : GameSt) (p : Nat)
    (hwd : g.waiting_for_double = true)
    (hdp : g.double_player_index = (p : Int)) :
    g.handle_double_response p (-1) =
      GameSt.double_decline_tail
        { g with waiting_for_double := false, double_base_card := none,
                 double_player_index := -1 }
        p (g.double_base_card.getD default) := by
  have hguard : ¬ (¬ g.waiting_for_double = true ∨
      (p : Int) ≠ g.double_player_index) := by simp [hwd, hdp]
  unfold GameSt.handle_double_response
  rw [if_neg hguard]
  dsimp only
  rw [if_neg (by intro h; exact absurd h.1 (by norm_num))]

/-- An out-of-range or wrong-artist double response takes the same path
as the explicit decline. -/
theorem handle_double_response_invalid_eq_decline (g : GameSt) (p : Nat)
    (sci : Int) (hwd : g.waiting_for_double = true)
    (hdp : g.double_player_index = (p : Int))
    (hoor : (((g.getPlayer p).hand.length : Int) ≤ sci) ∨
      (0 ≤ sci ∧ sci < ((g.getPlayer p).hand.length : Int) ∧
        ((g.getPlayer p).hand.getD sci.toNat default).artist ≠
          (g.double_base_card.getD default).artist)) :
    g.handle_double_response p sci = g.handle_double_response p (-1) := by
  have hguard : ¬ (¬ g.waiting_for_double = true ∨
      (p : Int) ≠ g.double_player_index) := by simp [hwd, hdp]
  unfold GameSt.handle_double_response
  rw [if_neg hguard, if_neg hguard]
  dsimp only
  rw [if_neg (show ¬ ((0 : Int) ≤ -1 ∧
      (-1 : Int) < ((g.getPlayer p).hand.length : Int)) from
    fun h => absurd h.1 (by norm_num))]
  rcases hoor with hge | ⟨h0, hlt, hart⟩
  · rw [if_neg (fun h => absurd h.2 (not_lt.mpr hge))]
  · rw [if_pos ⟨h0, hlt⟩]
    rw [if_neg hart]

/-- C10: while a double decision is pending, a double response from the
escrowing player whose second-card index is out of range, or which names
a hand card of a different artist than the base card, is processed
exactly like an explicit decline (`-1`), with no error reported: the
base card alone gets a single board increment and (when that increment
does not end the round) is auctioned as an `open` auction with the
responder as seller, the hand left untouched. -/
theorem double_response_invalid_is_decline (g : GameSt) (p : Nat) (sci : Int)
    (hwd : g.waiting_for_double = true)
    (hdp : g.double_player_index = (p : Int))
    (hoor : (((g.getPlayer p).hand.length : Int) ≤ sci) ∨
      (0 ≤ sci ∧ sci < ((g.getPlayer p).hand.length : Int) ∧
        ((g.getPlayer p).hand.getD sci.toNat default).artist ≠
          (g.double_base_card.getD default).artist)) :
    g.handle_double_response p sci = g.handle_double_response p (-1) ∧
    hasError (g.handle_double_response p sci).2 = false ∧
    (g.board (g.double_base_card.getD default).artist + 1 <
        ROUND_END_CARD_COUNT →
      ((g.handle_double_response p sci).1.board
          (g.double_base_card.getD default).artist =
        g.board (g.double_base_card.getD default).artist + 1 ∧
       (g.handle_double_response p sci).1.current_auction =
        some (Auction.create .openT p (g.double_base_card.getD default)
          g.num_players none) ∧
       (g.handle_double_response p sci).1.waiting_for_double = false ∧
       (g.handle_double_response p sci).1.players = g.players)) := by
  have heq := handle_double_response_invalid_eq_decline g p sci hwd hdp hoor
  have hdec := handle_double_response_decline g p hwd hdp
  rw [heq, hdec]
  refine ⟨rfl, ?_, ?_⟩
  · unfold GameSt.double_decline_tail
    dsimp only
    split
    · exact end_round_no_error _
    · rfl
  · intro hb
    unfold GameSt.double_decline_tail
    dsimp only
    have hcheck : (GameSt.check_round_end
        { g with waiting_for_double := false, double_base_card := none,
                 double_player_index := -1,
                 board := Function.update g.board
                   (g.double_base_card.getD default).artist
                   (g.board (g.double_base_card.getD default).artist + 1) }
        (g.double_base_card.getD default).artist) = false := by
      simp only [GameSt.check_round_end, Function.update_same,
        decide_eq_false_iff_not]
      omega
    rw [if_neg (by simp [hcheck])]
    refine ⟨by simp [GameSt.start_auction, Function.update_same], ?_, rfl, rfl⟩
    simp [GameSt.start_auction]



/-- C2 failing run: from a round-4 state with P0's double decision
pending for Orange (board Orange = 4), `handle_play_card` still accepts
P0's play of another Orange card — the pending double does not suspend
turn processing — which raises Orange to 5 and ends round 4 (game over,
board kept).  The still-pending double response is then also accepted and
applies its increment: the Orange board count reaches 6, exceeding the
cap of 5 that the round-end check (`_check_round_end` after every
increment) is meant to enforce. -/
theorem board_exceeds_cap_after_stale_double :
    ((staleDoubleGame.handle_play_card 0 0 (-1)).1.game_over = true) ∧
    ((staleDoubleGame.handle_play_card 0 0 (-1)).1.board Artist.orangeTarou
      = 5) ∧
    ((staleDoubleGame.handle_play_card 0 0 (-1)).1.waiting_for_double
      = true) ∧
    (((staleDoubleGame.handle_play_card 0 0
        (-1)).1.handle_double_response 0 (-1)).1.board Artist.orangeTarou
      = 6) := by
  decide

/-! ### Round-end scoring (C8) -/

theorem artistIdx_inj : ∀ x y : Artist, artistIdx x = artistIdx y → x = y := by
  intro x y h
  cases x <;> cases y <;> first | rfl | (exfalso; simp [artistIdx] at h)

instance : IsTotal (Artist × Nat) roundSortLE :=
  ⟨by intro x y; unfold roundSortLE; omega⟩

instance : IsTrans (Artist × Nat) roundSortLE :=
  ⟨by intro x y z hxy hyz; unfold roundSortLE at *; omega⟩

theorem roundSortLE_of_LT {x y : Artist × Nat} (h : roundSortLT x y) :
    roundSortLE x y := by
  unfold roundSortLT at h; unfold roundSortLE; omega

theorem not_roundSortLT_of_LE {x y : Artist × Nat} (h : roundSortLE x y) :
    ¬ roundSortLT y x := by
  unfold roundSortLE at h; unfold roundSortLT; omega

theorem roundSortLT_of_LE_ne {x y : Artist × Nat} (h : roundSortLE x y)
    (hne : x.1 ≠ y.1) : roundSortLT x y := by
  have : artistIdx x.1 ≠ artistIdx y.1 :=
    fun he => hne (artistIdx_inj _ _ he)
  unfold roundSortLE at h; unfold roundSortLT; omega

/-- An artist absent from the ranking list keeps its accumulator value
(0 for `calculate_round_values`). -/
theorem assignRoundValues_not_mem (l : List (Artist × Nat)) (a : Artist) :
    ∀ (k : Nat) (acc : Artist → Int), a ∉ l.map Prod.fst →
      assignRoundValues l k acc a = acc a := by
  induction l with
  | nil => intro k acc _; rfl
  | cons hd t ih =>
      intro k acc h
      obtain ⟨b, cb⟩ := hd
      simp only [List.map_cons, List.mem_cons] at h
      push_neg at h
      rcases hrv : ROUND_VALUES (k + 1) with _ | v <;>
        simp only [assignRoundValues, hrv]
      · exact ih (k + 1) acc h.2
      · rw [ih (k + 1) _ h.2, Function.update_noteq h.1]

/-- Walking a sorted, artist-nodup ranking list assigns an artist the
round value of one plus the number of entries that strictly precede it
(offset by the starting rank `k`). -/
theorem assignRoundValues_sorted (l : List (Artist × Nat)) (a : Artist)
    (c : Nat) :
    ∀ (k : Nat) (acc : Artist → Int), l.Sorted roundSortLE →
      (l.map Prod.fst).Nodup → (a, c) ∈ l →
      assignRoundValues l k acc a =
        (ROUND_VALUES (k + l.countP (fun x => roundSortLT x (a, c)) + 1)).getD
          (acc a) := by
  induction l with
  | nil => intro k acc _ _ hmem; simp at hmem
  | cons x t ih =>
      intro k acc hs hnd hmem
      obtain ⟨hhead, hst⟩ := List.sorted_cons.mp hs
      simp only [List.map_cons, List.nodup_cons] at hnd
      by_cases hxa : x.1 = a
      · have hx : x = (a, c) := by
          rcases List.mem_cons.mp hmem with h | h
          · exact h.symm
          · exact absurd (List.mem_map_of_mem Prod.fst h)
              (by rw [hxa] at hnd; exact hnd.1)
        subst hx
        have hcount : t.countP (fun y => roundSortLT y (a, c)) = 0 := by
          rw [List.countP_eq_zero]
          intro y hy
          simpa using not_roundSortLT_of_LE (hhead y hy)
        rw [List.countP_cons]
        have hself : ¬ roundSortLT (a, c) (a, c) := by
          simp [roundSortLT]
        rw [if_neg (by simpa using hself), hcount]
        rcases hrv : ROUND_VALUES (k + 1) with _ | v <;>
          simp only [assignRoundValues, hrv]
        · rw [assignRoundValues_not_mem t a (k + 1) acc hnd.1]
          simp [hrv]
        · rw [assignRoundValues_not_mem t a (k + 1) _ hnd.1,
            Function.update_same]
          simp [hrv]
      · have hmem' : (a, c) ∈ t := by
          rcases List.mem_cons.mp hmem with h | h
          · exact absurd (congrArg Prod.fst h.symm) hxa
          · exact h
        have hlt : roundSortLT x (a, c) :=
          roundSortLT_of_LE_ne (hhead _ hmem') hxa
        rw [List.countP_cons, if_pos (by simpa using hlt)]
        rcases hrv : ROUND_VALUES (k + 1) with _ | v <;>
          simp only [assignRoundValues, hrv]
        · rw [ih (k + 1) acc hst hnd.2 hmem']
          have harith : k + 1 + t.countP (fun y => roundSortLT y (a, c)) + 1 =
              k + (t.countP (fun y => roundSortLT y (a, c)) + 1) + 1 := by
            omega
          rw [harith]
        · rw [ih (k + 1) _ hst hnd.2 hmem',
            Function.update_noteq (Ne.symm hxa)]
          have harith : k + 1 + t.countP (fun y => roundSortLT y (a, c)) + 1 =
              k + (t.countP (fun y => roundSortLT y (a, c)) + 1) + 1 := by
            omega
          rw [harith]

theorem ARTISTS_nodup : ARTISTS.Nodup := by decide

theorem mem_ARTISTS (a : Artist) : a ∈ ARTISTS := by cases a <;> decide

/-- C8: at round end every artist's award is determined by its rank
among the positive-count artists — ranks are by board count, ties broken
by the fixed artist priority order — with ranks 1/2/3 earning
30000/20000/10000 and every other artist (every zero-count artist
included) earning 0.  Concretely, Orange:3 and Green:2 with the rest at
0 award Orange 30000, Green 20000 and the others 0, and the tie
Orange:2, Green:2 is broken in Orange's favour by priority order. -/
theorem round_end_scoring (board : Artist → Nat) (a : Artist) :
    (calculate_round_values board a =
      if board a = 0 then 0
      else (ROUND_VALUES (specRank board a + 1)).getD 0) ∧
    ((calculate_round_values (fun x => if x = Artist.orangeTarou then 3
        else if x = Artist.greenTarou then 2 else 0)) Artist.orangeTarou
          = 30000 ∧
     (calculate_round_values (fun x => if x = Artist.orangeTarou then 3
        else if x = Artist.greenTarou then 2 else 0)) Artist.greenTarou
          = 20000 ∧
     (calculate_round_values (fun x => if x = Artist.orangeTarou then 3
        else if x = Artist.greenTarou then 2 else 0)) Artist.blueTarou = 0 ∧
     (calculate_round_values (fun x => if x = Artist.orangeTarou then 3
        else if x = Artist.greenTarou then 2 else 0)) Artist.yellowTarou = 0 ∧
     (calculate_round_values (fun x => if x = Artist.orangeTarou then 3
        else if x = Artist.greenTarou then 2 else 0)) Artist.redTarou = 0) ∧
    ((calculate_round_values (fun x => if x = Artist.orangeTarou then 2
        else if x = Artist.greenTarou then 2 else 0)) Artist.orangeTarou
          = 30000 ∧
     (calculate_round_values (fun x => if x = Artist.orangeTarou then 2
        else if x = Artist.greenTarou then 2 else 0)) Artist.greenTarou
          = 20000) := by
  refine ⟨?_, by decide, by decide⟩
  unfold calculate_round_values
  set l := ((ARTISTS.map (fun x => (x, board x))).filter
    (fun x => 0 < x.2)) with hl
  have hperm : (List.insertionSort roundSortLE l).Perm l :=
    List.perm_insertionSort roundSortLE l
  have hsorted : (List.insertionSort roundSortLE l).Sorted roundSortLE :=
    List.sorted_insertionSort roundSortLE l
  have hlmap : l.map Prod.fst =
      ARTISTS.filter (fun b => 0 < board b) := by
    rw [hl, List.filter_map, List.map_map]
    have h1 : (Prod.fst ∘ fun x : Artist => (x, board x)) = id := rfl
    rw [h1, List.map_id]
    rfl
  have hlnodup : (l.map Prod.fst).Nodup := by
    rw [hlmap]
    exact (List.filter_sublist ARTISTS).nodup ARTISTS_nodup
  have hsnodup : ((List.insertionSort roundSortLE l).map Prod.fst).Nodup :=
    ((hperm.map Prod.fst).nodup_iff).mpr hlnodup
  by_cases hz : board a = 0
  · rw [if_pos hz]
    apply assignRoundValues_not_mem
    intro hmem
    rw [(hperm.map Prod.fst).mem_iff, hlmap, List.mem_filter] at hmem
    rw [hz] at hmem
    simpa using hmem.2
  · rw [if_neg hz]
    have hmeml : (a, board a) ∈ l := by
      rw [hl, List.mem_filter]
      refine ⟨List.mem_map_of_mem _ (mem_ARTISTS a), ?_⟩
      simpa using Nat.pos_of_ne_zero hz
    have hmems : (a, board a) ∈ List.insertionSort roundSortLE l :=
      hperm.mem_iff.mpr hmeml
    rw [assignRoundValues_sorted _ a (board a) 0 (fun _ => 0) hsorted
      hsnodup hmems]
    have hcount : (List.insertionSort roundSortLE l).countP
        (fun x => roundSortLT x (a, board a)) =
        specRank board a := by
      rw [hperm.countP_eq]
      unfold specRank
      rw [← List.countP_eq_length_filter, List.countP_filter,
        List.countP_filter, List.countP_map]
      rfl
    rw [hcount]
    simp

/-! ### Automation bid legality (C9) -/

/-- The final legality gate shared by the live-format deciders: a bid
rounded down to a multiple of 1000 from a value at least one increment
above the current bid, returned only if affordable. -/
theorem bid_tail_legal (cb money B : Int) (hmod : cb % 1000 = 0)
    (hB : cb + 1000 ≤ B) :
    ∀ b : Int,
      (if B / 1000 * 1000 > money then none
       else some (B / 1000 * 1000) : Option Int) = some b →
      b % 1000 = 0 ∧ b ≤ money ∧ cb < b := by
  intro b hb
  split at hb
  · simp at hb
  · rename_i hg
    push_neg at hg
    simp only [Option.some_inj] at hb
    subst hb
    refine ⟨by omega, hg, by omega⟩

/-- C9: for every outcome of the random draws (`u`, `uf`, `inc` range
over all rationals/integers, which covers every value `random.uniform`
and `random.choice` can produce), under the hypotheses that the current
bid is a non-negative multiple of 1000 and the actor's funds are
non-negative: every bid the deciders return is a multiple of 1000 and
never exceeds the actor's funds; for the live formats (open,
once-around) it strictly exceeds the prior current bid; and when no
legal bid exists (the minimum raise exceeds the funds, or for sealed the
funds are below one increment) the decider passes (`none`, or `0` for
sealed). -/
theorem ai_bid_decisions_legal (d : Difficulty) (card : Card)
    (current_bid my_money : Int) (board : Artist → Nat)
    (market : Artist → Int) (dbl : Bool) (u uf : ℚ) (inc : Int) (n : Nat) :
    (0 ≤ current_bid → current_bid % 1000 = 0 → 0 ≤ my_money →
      ((∀ b, decide_bid_open d card current_bid my_money board market dbl
            u inc = some b →
          b % 1000 = 0 ∧ b ≤ my_money ∧ current_bid < b) ∧
       (my_money < current_bid + 1000 →
          decide_bid_open d card current_bid my_money board market dbl
            u inc = none))) ∧
    (0 ≤ current_bid → current_bid % 1000 = 0 → 0 ≤ my_money →
      ((∀ b, decide_bid_once_around d card current_bid my_money board
            market dbl u uf = some b →
          b % 1000 = 0 ∧ b ≤ my_money ∧ current_bid < b) ∧
       (my_money < current_bid + 1000 →
          decide_bid_once_around d card current_bid my_money board market
            dbl u uf = none))) ∧
    (0 ≤ my_money →
      ((decide_bid_sealed d card my_money board market n dbl u uf) % 1000
          = 0 ∧
       0 ≤ decide_bid_sealed d card my_money board market n dbl u uf ∧
       decide_bid_sealed d card my_money board market n dbl u uf ≤
          my_money ∧
       (my_money < 1000 →
          decide_bid_sealed d card my_money board market n dbl u uf = 0))) := by
  refine ⟨?_, ?_, ?_⟩
  · intro _ hmod hm0
    unfold decide_bid_open
    dsimp only
    split
    · exact ⟨fun b hb => by simp at hb, fun _ => rfl⟩
    · rename_i hc
      push_neg at hc
      have hfund : current_bid + 1000 ≤ my_money := by
        have h2 : ((current_bid + 1000 : Int) : ℚ) ≤ (my_money : ℚ) :=
          le_trans (by push_cast at hc ⊢; exact hc) (min_le_right _ _)
        exact_mod_cast h2
      constructor
      · exact fun b hb => bid_tail_legal current_bid my_money _ hmod
          (le_max_right _ _) b hb
      · intro hlow
        omega
  · intro _ hmod hm0
    unfold decide_bid_once_around
    dsimp only
    split
    · exact ⟨fun b hb => by simp at hb, fun _ => rfl⟩
    · rename_i hc
      push_neg at hc
      have hfund : max (current_bid + 1000) 1000 ≤ my_money := by
        have h2 : ((max (current_bid + 1000) 1000 : Int) : ℚ) ≤
            (my_money : ℚ) :=
          le_trans (by push_cast at hc ⊢; exact hc) (min_le_right _ _)
        exact_mod_cast h2
      have hcb : current_bid + 1000 ≤ max (current_bid + 1000) 1000 :=
        le_max_left _ _
      constructor
      · exact fun b hb => bid_tail_legal current_bid my_money _ hmod
          (le_trans (le_max_left _ 1000) (le_max_right _ _)) b hb
      · intro hlow
        omega
  · intro hm0
    unfold decide_bid_sealed
    dsimp only
    split
    · exact ⟨by omega, by omega, by omega, fun _ => rfl⟩
    · rename_i hc
      push_neg at hc
      have hfund : (1000 : ℚ) ≤ (my_money : ℚ) :=
        le_trans hc (min_le_right _ _)
      have hfund' : (1000 : Int) ≤ my_money := by exact_mod_cast hfund
      split
      · exact ⟨by omega, by omega, by omega, by omega⟩
      · rename_i hguard
        push_neg at hguard
        have hB : (1000 : Int) ≤
            max (pyint (min (estimate_card_value card board market dbl *
                aggression_factor d u) (my_money : ℚ) * uf)) 1000 :=
          le_max_right _ _
        refine ⟨by omega, by omega, hguard, by omega⟩

/-! ### Auction well-formedness through `process_action` (toward C1) -/

/-- Every entry of `dictSet l k v` is either keyed `k` or an original
entry. -/
theorem dictSet_mem (l : List (Nat × Int)) (k : Nat) (v : Int) :
    ∀ kv ∈ dictSet l k v, kv.1 = k ∨ kv ∈ l := by
  intro kv hkv
  unfold dictSet at hkv
  split at hkv
  · rcases List.mem_map.mp hkv with ⟨x, hx, hfx⟩
    by_cases hxk : x.1 = k
    · rw [if_pos hxk] at hfx; left; rw [← hfx]
    · rw [if_neg hxk] at hfx; right; rw [← hfx]; exact hx
  · rcases List.mem_append.mp hkv with h | h
    · right; exact h
    · left
      have : kv = (k, v) := by simpa using h
      rw [this]

/-- The result produced by a resolution check is well-formed: its seller
is seated and its winner is either the seller or a seated player. -/
def RWF (r : AuctionResult) (n : Nat) : Prop :=
  r.seller_index < n ∧
  (r.winner_index = (r.seller_index : Int) ∨
    (0 ≤ r.winner_index ∧ r.winner_index < (n : Int)))

theorem check_open_resolved_wf (a : Auction) (n : Nat) (ha : AWF a n) :
    AWF (a.check_open_resolved).2 n ∧
    ∀ r, (a.check_open_resolved).1 = some r → RWF r n := by
  obtain ⟨h1, h2, h3, h4⟩ := ha
  unfold Auction.check_open_resolved
  dsimp only
  split
  · split
    · exact ⟨⟨h1, h2, h3, h4⟩, fun r hr => by
        simp only [Option.some_inj] at hr
        exact hr ▸ ⟨h2, Or.inl rfl⟩⟩
    · rename_i hbid
      refine ⟨⟨h1, h2, h3, h4⟩, fun r hr => ?_⟩
      simp only [Option.some_inj] at hr
      subst hr
      refine ⟨h2, Or.inr ?_⟩
      rcases h3 with h | h
      · exact absurd h hbid
      · exact h
  · exact ⟨⟨h1, h2, h3, h4⟩, fun r hr => by simp at hr⟩

theorem check_once_around_resolved_wf (a : Auction) (n : Nat)
    (ha : AWF a n) :
    AWF (a.check_once_around_resolved).2 n ∧
    ∀ r, (a.check_once_around_resolved).1 = some r → RWF r n := by
  obtain ⟨h1, h2, h3, h4⟩ := ha
  unfold Auction.check_once_around_resolved
  split
  · split
    · exact ⟨⟨h1, h2, h3, h4⟩, fun r hr => by
        simp only [Option.some_inj] at hr
        exact hr ▸ ⟨h2, Or.inl rfl⟩⟩
    · rename_i hbid
      refine ⟨⟨h1, h2, h3, h4⟩, fun r hr => ?_⟩
      simp only [Option.some_inj] at hr
      subst hr
      refine ⟨h2, Or.inr ?_⟩
      rcases h3 with h | h
      · exact absurd h hbid
      · exact h
  · exact ⟨⟨h1, h2, h3, h4⟩, fun r hr => by simp at hr⟩

theorem check_sealed_resolved_wf (a : Auction) (n : Nat) (ha : AWF a n) :
    AWF (a.check_sealed_resolved).2 n ∧
    ∀ r, (a.check_sealed_resolved).1 = some r → RWF r n := by
  obtain ⟨h1, h2, h3, h4⟩ := ha
  unfold Auction.check_sealed_resolved
  dsimp only
  split
  · split
    · exact ⟨⟨h1, h2, h3, h4⟩, fun r hr => by
        simp only [Option.some_inj] at hr
        exact hr ▸ ⟨h2, Or.inl rfl⟩⟩
    · rename_i hbids
      push_neg at hbids
      refine ⟨⟨h1, h2, h3, h4⟩, fun r hr => ?_⟩
      simp only [Option.some_inj] at hr
      subst hr
      obtain ⟨hmem, _⟩ := dictMaxByBid_spec a.bids hbids.1
      have := h4 _ hmem
      exact ⟨h2, Or.inr ⟨Int.natCast_nonneg _, Int.ofNat_lt.mpr this⟩⟩
  · exact ⟨⟨h1, h2, h3, h4⟩, fun r hr => by simp at hr⟩

theorem check_fixed_price_resolved_wf (a : Auction) (n : Nat)
    (ha : AWF a n) :
    AWF (a.check_fixed_price_resolved).2 n ∧
    ∀ r, (a.check_fixed_price_resolved).1 = some r → RWF r n := by
  obtain ⟨h1, h2, h3, h4⟩ := ha
  unfold Auction.check_fixed_price_resolved
  split
  · exact ⟨⟨h1, h2, h3, h4⟩, fun r hr => by simp at hr⟩
  · split
    · exact ⟨⟨h1, h2, h3, h4⟩, fun r hr => by
        simp only [Option.some_inj] at hr
        exact hr ▸ ⟨h2, Or.inl rfl⟩⟩
    · exact ⟨⟨h1, h2, h3, h4⟩, fun r hr => by simp at hr⟩

/-- `process_action` keeps the auction well-formed and only produces
well-formed results. -/
theorem process_action_wf (a : Auction) (p : Nat) (act : AAct) (amt : Int)
    (n : Nat) (ha : AWF a n) (hp : p < n) :
    AWF (a.process_action p act amt).2.2 n ∧
    ∀ r, (a.process_action p act amt).2.1 = some r → RWF r n := by
  obtain ⟨h1, h2, h3, h4⟩ := ha
  have hbidsSet : ∀ amt', ∀ kv ∈ dictSet a.bids p amt', kv.1 < n := by
    intro amt' kv hkv
    rcases dictSet_mem a.bids p amt' kv hkv with h | h
    · rw [h]; exact hp
    · exact h4 kv h
  cases ht : a.auction_type <;> cases act <;>
    simp only [Auction.process_action, ht] <;>
    try exact ⟨⟨h1, h2, h3, h4⟩, fun r hr => by simp at hr⟩
  · -- open bid
    rcases hob : a.open_bid p amt with ⟨err, a'⟩
    have ha' : AWF a' n := by
      unfold Auction.open_bid at hob
      split_ifs at hob <;> simp only [Prod.mk.injEq] at hob <;>
        rw [← hob.2]
      · exact ⟨h1, h2, h3, h4⟩
      · exact ⟨h1, h2, h3, h4⟩
      · exact ⟨h1, h2, h3, h4⟩
      · exact ⟨h1, h2, h3, h4⟩
      · exact ⟨h1, h2, Or.inr ⟨Int.natCast_nonneg p, Int.ofNat_lt.mpr hp⟩,
          hbidsSet amt⟩
    rcases err with _ | msg
    · simp only [stepThenCheck]
      obtain ⟨hc1, hc2⟩ := check_open_resolved_wf a' n ha'
      exact ⟨hc1, hc2⟩
    · exact ⟨ha', fun r hr => by simp [stepThenCheck] at hr⟩
  · -- open pass
    have ha' : AWF (a.open_pass p) n := by
      unfold Auction.open_pass
      split <;> exact ⟨h1, h2, h3, h4⟩
    simp only [passThenCheck]
    obtain ⟨hc1, hc2⟩ := check_open_resolved_wf (a.open_pass p) n ha'
    exact ⟨hc1, hc2⟩
  · -- once_around bid
    rcases hob : a.once_around_bid p amt with ⟨err, a'⟩
    have ha' : AWF a' n := by
      unfold Auction.once_around_bid at hob
      split_ifs at hob <;> simp only [Prod.mk.injEq] at hob <;>
        rw [← hob.2]
      · exact ⟨h1, h2, h3, h4⟩
      · exact ⟨h1, h2, h3, h4⟩
      · exact ⟨h1, h2, h3, h4⟩
      · exact ⟨h1, h2, Or.inr ⟨Int.natCast_nonneg p, Int.ofNat_lt.mpr hp⟩,
          hbidsSet amt⟩
    rcases err with _ | msg
    · simp only [stepThenCheck]
      obtain ⟨hc1, hc2⟩ := check_once_around_resolved_wf a' n ha'
      exact ⟨hc1, hc2⟩
    · exact ⟨ha', fun r hr => by simp [stepThenCheck] at hr⟩
  · -- once_around pass
    have ha' : AWF (a.once_around_pass p) n := by
      unfold Auction.once_around_pass
      dsimp only
      split <;> exact ⟨h1, h2, h3, h4⟩
    simp only [passThenCheck]
    obtain ⟨hc1, hc2⟩ := check_once_around_resolved_wf
      (a.once_around_pass p) n ha'
    exact ⟨hc1, hc2⟩
  · -- sealed bid
    rcases hob : a.sealed_bid p amt with ⟨err, a'⟩
    have ha' : AWF a' n := by
      unfold Auction.sealed_bid at hob
      split_ifs at hob <;> simp only [Prod.mk.injEq] at hob <;>
        rw [← hob.2]
      · exact ⟨h1, h2, h3, h4⟩
      · exact ⟨h1, h2, h3, h4⟩
      · exact ⟨h1, h2, h3, h4⟩
      · exact ⟨h1, h2, h3, h4⟩
      · exact ⟨h1, h2, h3, hbidsSet amt⟩
    rcases err with _ | msg
    · simp only [stepThenCheck]
      obtain ⟨hc1, hc2⟩ := check_sealed_resolved_wf a' n ha'
      exact ⟨hc1, hc2⟩
    · exact ⟨ha', fun r hr => by simp [stepThenCheck] at hr⟩
  · -- sealed pass
    have ha' : AWF (a.sealed_pass p) n := by
      unfold Auction.sealed_pass
      split
      · exact ⟨h1, h2, h3, hbidsSet 0⟩
      · exact ⟨h1, h2, h3, h4⟩
    simp only [passThenCheck]
    obtain ⟨hc1, hc2⟩ := check_sealed_resolved_wf (a.sealed_pass p) n ha'
    exact ⟨hc1, hc2⟩
  · -- fixed_price pass (decline)
    have ha' : AWF (a.fixed_price_decline p) n := by
      unfold Auction.fixed_price_decline
      dsimp only
      split <;> exact ⟨h1, h2, h3, h4⟩
    simp only [passThenCheck]
    obtain ⟨hc1, hc2⟩ := check_fixed_price_resolved_wf
      (a.fixed_price_decline p) n ha'
    exact ⟨hc1, hc2⟩
  · -- fixed_price decline
    have ha' : AWF (a.fixed_price_decline p) n := by
      unfold Auction.fixed_price_decline
      dsimp only
      split <;> exact ⟨h1, h2, h3, h4⟩
    simp only [passThenCheck]
    obtain ⟨hc1, hc2⟩ := check_fixed_price_resolved_wf
      (a.fixed_price_decline p) n ha'
    exact ⟨hc1, hc2⟩
  · -- fixed_price set_price
    rcases hob : a.set_fixed_price amt with ⟨err, a'⟩
    have ha' : AWF a' n := by
      unfold Auction.set_fixed_price at hob
      split_ifs at hob <;> simp only [Prod.mk.injEq] at hob <;>
        rw [← hob.2] <;> exact ⟨h1, h2, h3, h4⟩
    rcases err with _ | msg
    · simp only [stepThenCheck]
      obtain ⟨hc1, hc2⟩ := check_fixed_price_resolved_wf a' n ha'
      exact ⟨hc1, hc2⟩
    · exact ⟨ha', fun r hr => by simp [stepThenCheck] at hr⟩
  · -- fixed_price accept
    unfold Auction.fixed_price_accept
    split
    · exact ⟨⟨h1, h2, h3, h4⟩, fun r hr => by simp at hr⟩
    · refine ⟨⟨h1, h2, h3, h4⟩, fun r hr => ?_⟩
      simp only [Option.some_inj] at hr
      subst hr
      exact ⟨h2, Or.inr ⟨Int.natCast_nonneg p, Int.ofNat_lt.mpr hp⟩⟩

/-! ### Per-handler conservation and well-formedness (toward C1) -/

/-- What every handler invocation preserves: money conservation up to
the emitted payouts, the roster size, the seat count, and auction
well-formedness. -/
def StepOK (g : GameSt) (out : GameSt × List Evt) : Prop :=
  totalMoney out.1.players = totalMoney g.players + payoutOf out.2 ∧
  out.1.players.length = g.players.length ∧
  out.1.num_players = g.num_players ∧
  (∀ au, out.1.current_auction = some au → AWF au g.num_players)

theorem StepOK_id (g : GameSt) (evts : List Evt)
    (hev : payoutOf evts = 0)
    (hau : ∀ au, g.current_auction = some au → AWF au g.num_players) :
    StepOK g (g, evts) := by
  exact ⟨by rw [hev]; ring, rfl, rfl, hau⟩

theorem StepOK_pre (g g1 : GameSt) (out : GameSt × List Evt)
    (hm : totalMoney g1.players = totalMoney g.players)
    (hl : g1.players.length = g.players.length)
    (hn : g1.num_players = g.num_players)
    (h : StepOK g1 out) : StepOK g out := by
  obtain ⟨a, b, c, d⟩ := h
  refine ⟨by rw [a, hm], by rw [b, hl], by rw [c, hn], ?_⟩
  intro au hau
  rw [← hn]
  exact d au hau

theorem end_round_np (g : GameSt) :
    (g.end_round).1.num_players = g.num_players := by
  unfold GameSt.end_round
  dsimp only
  split <;> simp [GameSt.end_game]

theorem end_round_ok (g : GameSt)
    (hau : ∀ au, g.current_auction = some au → AWF au g.num_players) :
    StepOK g g.end_round := by
  obtain ⟨h1, h2, h3⟩ := end_round_money g
  refine ⟨h1, h2, end_round_np g, ?_⟩
  intro au hmem
  rw [h3] at hmem
  exact hau au hmem

theorem advance_turn_np (g : GameSt) :
    (g.advance_turn).1.num_players = g.num_players := by
  unfold GameSt.advance_turn
  split
  · exact end_round_np g
  · rfl

theorem advance_turn_auction (g : GameSt) :
    (g.advance_turn).1.current_auction = g.current_auction := by
  unfold GameSt.advance_turn
  split
  · exact (end_round_money g).2.2
  · rfl

theorem advance_turn_ok (g : GameSt)
    (hau : ∀ au, g.current_auction = some au → AWF au g.num_players) :
    StepOK g g.advance_turn := by
  obtain ⟨h1, h2⟩ := advance_turn_money g
  refine ⟨h1, h2, advance_turn_np g, ?_⟩
  intro au hmem
  rw [advance_turn_auction g] at hmem
  exact hau au hmem

theorem resolve_auction_np (g : GameSt) (r : AuctionResult) :
    (g.resolve_auction r).1.num_players = g.num_players := by
  unfold GameSt.resolve_auction
  dsimp only
  exact advance_turn_np _

theorem resolve_auction_none (g : GameSt) (r : AuctionResult) :
    (g.resolve_auction r).1.current_auction = none := by
  unfold GameSt.resolve_auction
  dsimp only
  rw [advance_turn_auction _]

theorem resolve_auction_ok (g : GameSt) (r : AuctionResult)
    (hs : r.seller_index < g.players.length)
    (hw : r.winner_index ≠ (r.seller_index : Int) →
      0 ≤ r.winner_index ∧ r.winner_index < (g.players.length : Int)) :
    StepOK g (g.resolve_auction r) := by
  obtain ⟨h1, h2⟩ := resolve_auction_money g r hs hw
  refine ⟨h1, h2, resolve_auction_np g r, ?_⟩
  intro au hmem
  rw [resolve_auction_none g r] at hmem
  simp at hmem

theorem start_auction_ok (g : GameSt) (seller : Nat) (card : Card)
    (ty : AuctionType) (dc : Option Card)
    (hs : seller < g.num_players) :
    StepOK g (g.start_auction seller card ty dc) := by
  refine ⟨by simp [GameSt.start_auction, payoutOf], rfl, rfl, ?_⟩
  intro au hmem
  simp only [GameSt.start_auction, Option.some_inj] at hmem
  have hawf : AWF (Auction.create ty seller card g.num_players dc)
      g.num_players := by
    unfold Auction.create AWF
    exact ⟨rfl, hs, Or.inl rfl, by intro kv h; simp at h⟩
  rw [← hmem]
  split
  · unfold Auction.start_once_around
    obtain ⟨a, b, c, d⟩ := hawf
    exact ⟨a, b, c, d⟩
  · exact hawf

theorem play_single_card_ok (g : GameSt) (p : Nat) (card : Card) (ci : Nat)
    (hp : p < g.num_players)
    (hau : ∀ au, g.current_auction = some au → AWF au g.num_players) :
    StepOK g (g.play_single_card p card ci) := by
  unfold GameSt.play_single_card
  dsimp only
  split
  · refine StepOK_pre g _ _ ?_ ?_ ?_ (end_round_ok _ ?_)
    · exact totalMoney_updPlayer g.players (p : Int) _ (fun pl => rfl)
    · exact updPlayer_length g.players (p : Int) _
    · rfl
    · intro au hmem
      exact hau au hmem
  · refine StepOK_pre g _ _ ?_ ?_ ?_
      (start_auction_ok _ p card card.auction_type none hp)
    · exact totalMoney_updPlayer g.players (p : Int) _ (fun pl => rfl)
    · exact updPlayer_length g.players (p : Int) _
    · rfl

theorem play_double_ok (g : GameSt) (p : Nat) (card1 : Card) (i1 : Nat)
    (card2 : Card) (i2 : Nat) (hp : p < g.num_players)
    (hau : ∀ au, g.current_auction = some au → AWF au g.num_players) :
    StepOK g (g.play_double p card1 i1 card2 i2) := by
  unfold GameSt.play_double
  dsimp only
  split
  · refine StepOK_pre g _ _ ?_ ?_ ?_ (end_round_ok _ ?_)
    · exact totalMoney_updPlayer g.players (p : Int) _ (fun pl => rfl)
    · exact updPlayer_length g.players (p : Int) _
    · rfl
    · intro au hmem
      exact hau au hmem
  · split
    · refine StepOK_pre g _ _ ?_ ?_ ?_ (end_round_ok _ ?_)
      · exact totalMoney_updPlayer g.players (p : Int) _ (fun pl => rfl)
      · exact updPlayer_length g.players (p : Int) _
      · rfl
      · intro au hmem
        exact hau au hmem
    · refine StepOK_pre g _ _ ?_ ?_ ?_
        (start_auction_ok _ p card1 _ (some card2) hp)
      · exact totalMoney_updPlayer g.players (p : Int) _ (fun pl => rfl)
      · exact updPlayer_length g.players (p : Int) _
      · rfl

theorem double_decline_tail_ok (g : GameSt) (p : Nat) (base : Card)
    (hp : p < g.num_players)
    (hau : ∀ au, g.current_auction = some au → AWF au g.num_players) :
    StepOK g (g.double_decline_tail p base) := by
  unfold GameSt.double_decline_tail
  dsimp only
  split
  · refine StepOK_pre g _ _ ?_ ?_ ?_ (end_round_ok _ ?_)
    · rfl
    · rfl
    · rfl
    · intro au hmem
      exact hau au hmem
  · refine StepOK_pre g _ _ ?_ ?_ ?_
      (start_auction_ok _ p base .openT none hp)
    · rfl
    · rfl
    · rfl

theorem handle_play_card_ok (g : GameSt) (p : Nat) (ci dci : Int)
    (hp : p < g.num_players)
    (hau : ∀ au, g.current_auction = some au → AWF au g.num_players) :
    StepOK g (g.handle_play_card p ci dci) := by
  unfold GameSt.handle_play_card
  dsimp only
  split
  · exact StepOK_id g _ (by simp [payoutOf]) hau
  · split
    · exact StepOK_id g _ (by simp [payoutOf]) hau
    · split
      · exact StepOK_id g _ (by simp [payoutOf]) hau
      · split
        · exact StepOK_id g _ (by simp [payoutOf]) hau
        · split
          · split
            · split
              · exact StepOK_id g _ (by simp [payoutOf]) hau
              · split
                · exact StepOK_id g _ (by simp [payoutOf]) hau
                · exact play_double_ok g p _ _ _ _ hp hau
            · split
              · refine ⟨?_, ?_, rfl, ?_⟩
                · have h := totalMoney_updPlayer g.players (p : Int)
                    (fun pl => { pl with hand := pl.hand.eraseIdx ci.toNat })
                    (fun pl => rfl)
                  dsimp only
                  rw [h]
                  simp [payoutOf]
                · exact updPlayer_length g.players (p : Int) _
                · intro au hmem
                  exact hau au hmem
              · exact play_single_card_ok g p _ _ hp hau
          · exact play_single_card_ok g p _ _ hp hau

theorem handle_double_response_ok (g : GameSt) (p : Nat) (sci : Int)
    (hp : p < g.num_players)
    (hau : ∀ au, g.current_auction = some au → AWF au g.num_players) :
    StepOK g (g.handle_double_response p sci) := by
  unfold GameSt.handle_double_response
  dsimp only
  split
  · exact StepOK_id g _ (by simp [payoutOf]) hau
  · split
    · split
      · split
        · refine StepOK_pre g _ _ ?_ ?_ ?_ (end_round_ok _ ?_)
          · exact totalMoney_updPlayer g.players (p : Int) _ (fun pl => rfl)
          · exact updPlayer_length g.players (p : Int) _
          · rfl
          · intro au hmem
            exact hau au hmem
        · split
          · refine StepOK_pre g _ _ ?_ ?_ ?_ (end_round_ok _ ?_)
            · exact totalMoney_updPlayer g.players (p : Int) _
                (fun pl => rfl)
            · exact updPlayer_length g.players (p : Int) _
            · rfl
            · intro au hmem
              exact hau au hmem
          · refine StepOK_pre g _ _ ?_ ?_ ?_
              (start_auction_ok _ p _ _ _ hp)
            · exact totalMoney_updPlayer g.players (p : Int) _
                (fun pl => rfl)
            · exact updPlayer_length g.players (p : Int) _
            · rfl
      · exact double_decline_tail_ok _ p _ hp (fun au hmem => hau au hmem)
    · exact double_decline_tail_ok _ p _ hp (fun au hmem => hau au hmem)

/-- Storing the post-action auction with only an error (or nothing)
emitted preserves `StepOK`. -/
theorem store_auction_ok (g : GameSt) (au' : Auction) (evts : List Evt)
    (hev : payoutOf evts = 0) (hawf : AWF au' g.num_players) :
    StepOK g ({ g with current_auction := some au' }, evts) := by
  refine ⟨by rw [hev]; ring, rfl, rfl, ?_⟩
  intro au2 h2
  simp only [Option.some_inj] at h2
  rw [← h2]
  exact hawf

/-- Settling a well-formed resolution on the stored auction preserves
`StepOK`. -/
theorem settle_auction_ok (g : GameSt) (au' : Auction) (r : AuctionResult)
    (hlen : g.players.length = g.num_players)
    (hr : RWF r g.num_players) :
    StepOK g (({ g with current_auction := some au' } : GameSt).resolve_auction r) := by
  obtain ⟨hr1, hr2⟩ := hr
  refine StepOK_pre g _ _ ?_ ?_ ?_
    (resolve_auction_ok { g with current_auction := some au' } r ?_ ?_)
  · rfl
  · rfl
  · rfl
  · dsimp only
    rw [hlen]
    exact hr1
  · intro hne
    dsimp only
    rw [hlen]
    rcases hr2 with h | h
    · exact absurd h hne
    · exact ⟨h.1, by exact_mod_cast h.2⟩

theorem handle_bid_ok (g : GameSt) (p : Nat) (amount : Int)
    (hwf : WF g) (hp : p < g.num_players) :
    StepOK g (g.handle_bid p amount) := by
  obtain ⟨hlen, hauwf⟩ := hwf
  unfold GameSt.handle_bid
  rcases hca : g.current_auction with _ | au
  · exact StepOK_id g _ (by simp [payoutOf]) hauwf
  · dsimp only
    split
    · exact StepOK_id g _ (by simp [payoutOf]) hauwf
    · obtain ⟨hawf', hres⟩ := process_action_wf au p .bid amount
        g.num_players (hauwf au hca) hp
      rcases hpa : au.process_action p .bid amount with ⟨err, res, au'⟩
      rw [hpa] at hawf' hres
      dsimp only
      rcases err with _ | e
      · rcases res with _ | r
        · exact store_auction_ok g au' [] rfl hawf'
        · exact settle_auction_ok g au' r hlen (hres r rfl)
      · exact store_auction_ok g au' [Evt.errE p e] rfl hawf'

theorem handle_pass_ok (g : GameSt) (p : Nat)
    (hwf : WF g) (hp : p < g.num_players) :
    StepOK g (g.handle_pass p) := by
  obtain ⟨hlen, hauwf⟩ := hwf
  unfold GameSt.handle_pass
  rcases hca : g.current_auction with _ | au
  · exact StepOK_id g _ (by simp [payoutOf]) hauwf
  · dsimp only
    obtain ⟨hawf', hres⟩ := process_action_wf au p .passA 0
      g.num_players (hauwf au hca) hp
    rcases hpa : au.process_action p .passA 0 with ⟨err, res, au'⟩
    rw [hpa] at hawf' hres
    dsimp only
    rcases err with _ | e
    · rcases res with _ | r
      · exact store_auction_ok g au' [] rfl hawf'
      · exact settle_auction_ok g au' r hlen (hres r rfl)
    · exact store_auction_ok g au' [Evt.errE p e] rfl hawf'

theorem handle_accept_ok (g : GameSt) (p : Nat)
    (hwf : WF g) (hp : p < g.num_players) :
    StepOK g (g.handle_accept p) := by
  obtain ⟨hlen, hauwf⟩ := hwf
  unfold GameSt.handle_accept
  rcases hca : g.current_auction with _ | au
  · exact StepOK_id g _ (by simp [payoutOf]) hauwf
  · dsimp only
    split
    · exact StepOK_id g _ (by simp [payoutOf]) hauwf
    · split
      · exact StepOK_id g _ (by simp [payoutOf]) hauwf
      · obtain ⟨hawf', hres⟩ := process_action_wf au p .accept 0
          g.num_players (hauwf au hca) hp
        rcases hpa : au.process_action p .accept 0 with ⟨err, res, au'⟩
        rw [hpa] at hawf' hres
        dsimp only
        rcases err with _ | e
        · rcases res with _ | r
          · exact store_auction_ok g au' [] rfl hawf'
          · exact settle_auction_ok g au' r hlen (hres r rfl)
        · exact store_auction_ok g au' [Evt.errE p e] rfl hawf'

theorem handle_set_price_ok (g : GameSt) (p : Nat) (price : Int)
    (hwf : WF g) (hp : p < g.num_players) :
    StepOK g (g.handle_set_price p price) := by
  obtain ⟨hlen, hauwf⟩ := hwf
  unfold GameSt.handle_set_price
  rcases hca : g.current_auction with _ | au
  · exact StepOK_id g _ (by simp [payoutOf]) hauwf
  · dsimp only
    split
    · exact StepOK_id g _ (by simp [payoutOf]) hauwf
    · split
      · exact StepOK_id g _ (by simp [payoutOf]) hauwf
      · obtain ⟨hawf', hres⟩ := process_action_wf au p .set_price price
          g.num_players (hauwf au hca) hp
        rcases hpa : au.process_action p .set_price price with ⟨err, res, au'⟩
        rw [hpa] at hawf' hres
        dsimp only
        rcases err with _ | e
        · rcases res with _ | r
          · exact store_auction_ok g au' [] rfl hawf'
          · exact settle_auction_ok g au' r hlen (hres r rfl)
        · exact store_auction_ok g au' [Evt.errE p e] rfl hawf'

/-- Every entry-point invocation by a seated actor conserves money up to
its payout events and preserves well-formedness. -/
theorem applyAct_ok (g : GameSt) (act : GAct) (hwf : WF g)
    (hp : act.actor < g.num_players) :
    StepOK g (applyAct g act) := by
  cases act with
  | play p ci dci => exact handle_play_card_ok g p ci dci hp hwf.2
  | dresp p sci => exact handle_double_response_ok g p sci hp hwf.2
  | bidA p amount => exact handle_bid_ok g p amount hwf hp
  | passG p => exact handle_pass_ok g p hwf hp
  | acceptG p => exact handle_accept_ok g p hwf hp
  | set_priceG p amount => exact handle_set_price_ok g p amount hwf hp

theorem sum_map_const {α : Type} (l : List α) (c : Int) :
    (l.map (fun _ => c)).sum = l.length * c := by
  induction l with
  | nil => simp
  | cons x t ih => simp [ih]; ring

/-- The master invariant: every reachable state is well-formed and its
total player money is the seats times the starting money plus the
cumulative round-end payouts. -/
theorem reachable_inv (g : GameSt) (P : Int) (h : Reachable g P) :
    WF g ∧
    totalMoney g.players = (g.num_players : Int) * STARTING_MONEY + P := by
  induction h with
  | init deck n h3 h5 =>
      constructor
      · constructor
        · simp [startGame]
        · intro au hau
          simp [startGame] at hau
      · unfold startGame totalMoney
        dsimp only
        rw [List.map_map]
        have hcomp : ((fun p => p.money) ∘ fun i : Nat =>
            ({ hand := (deal_cards deck n 1).1.getD i [] } : PlayerSt)) =
            fun _ => STARTING_MONEY := rfl
        rw [hcomp, sum_map_const, List.length_range]
        ring
  | step act hp h ih =>
      obtain ⟨hwf, hmoney⟩ := ih
      obtain ⟨hm, hl, hn, hau⟩ := applyAct_ok _ act hwf hp
      constructor
      · constructor
        · rw [hl, hn, hwf.1]
        · intro au2 h2
          rw [hn]
          exact hau au2 h2
      · rw [hm, hmoney, hn]
        ring

/-- C1: for every sequence of entry-point invocations by seated actors
from a game start, the sum of all player balances plus the amount
escrowed in an unresolved auction (identically zero: the engine debits
money only at resolution) equals `num_players × STARTING_MONEY` plus the
cumulative market payouts made at round ends so far. -/
theorem money_conservation (g : GameSt) (P : Int) (h : Reachable g P) :
    totalMoney g.players + auction_escrow g =
      (g.num_players : Int) * STARTING_MONEY + P := by
  have := (reachable_inv g P h).2
  unfold auction_escrow
  omega

/-! ### Concrete witnesses -/

/-- Witness for `open_auction_resolution` at the auction reached after
P1 bids 5000, P2 bids 7000 and P1 passes. -/
theorem open_auction_resolution_witness :
    ((openBidAuction.check_open_resolved).1 = some ⟨2, 7000, 0⟩) ∧
    ((openBidAuction.current_bidder = -1 ∧
        (⟨2, 7000, 0⟩ : AuctionResult) =
          ⟨(openBidAuction.seller_index : Int), 0,
            openBidAuction.seller_index⟩) ∨
     (openBidAuction.current_bidder ≠ -1 ∧
        (⟨2, 7000, 0⟩ : AuctionResult) =
          ⟨openBidAuction.current_bidder, openBidAuction.current_bid,
            openBidAuction.seller_index⟩)) :=
  ⟨by decide, (open_auction_resolution _).2.1 ⟨2, 7000, 0⟩ (by decide)⟩

/-- Witness for `sealed_auction_resolution`: P1's pass on a fresh
4-player sealed auction is recorded as a bid of 0. -/
theorem sealed_auction_resolution_witness :
    ((1 : Nat) ≠ (Auction.create .sealed 0 default 4).seller_index) ∧
    (dictHas (Auction.create .sealed 0 default 4).bids 1 = false) ∧
    ((1, 0) ∈ ((Auction.create .sealed 0 default 4).sealed_pass 1).bids ∧
      ((Auction.create .sealed 0 default 4).sealed_pass 1).sealed_bids_received
        = (Auction.create .sealed 0 default 4).sealed_bids_received + 1) :=
  ⟨by decide, by decide,
    (sealed_auction_resolution _).2.1 1 (by decide) (by decide)⟩

/-- Witness for `open_pass_only_blocks_resolution_count`: the passed P1's
bid of 5000 is accepted on the fresh 3-player open auction. -/
theorem open_pass_only_blocks_resolution_witness :
    (((Auction.create .openT 0 default 3).open_pass 1).auction_type
      = .openT) ∧
    ((1 : Nat) ≠ ((Auction.create .openT 0 default 3).open_pass
      1).seller_index) ∧
    (((Auction.create .openT 0 default 3).open_pass 1).current_bid < 5000) ∧
    ((5000 : Int) % 1000 = 0) ∧
    ((((Auction.create .openT 0 default 3).open_pass 1).open_bid 1 5000).1
        = none ∧
      ((((Auction.create .openT 0 default 3).open_pass 1).open_bid 1
          5000).2).current_bidder = ((1 : Nat) : Int) ∧
      ((((Auction.create .openT 0 default 3).open_pass 1).open_bid 1
          5000).2).current_bid = 5000 ∧
      ((((Auction.create .openT 0 default 3).open_pass 1).open_bid 1
          5000).2).passed =
        ((Auction.create .openT 0 default 3).open_pass 1).passed) :=
  ⟨by decide, by decide, by decide, by decide,
    (open_pass_only_blocks_resolution_count _ 1 5000).2.1 (by decide)
      (by decide) (by decide) (by decide)⟩

/-- Witness for `auction_validation_precedes_mutation`: on a fresh open
auction, the failure characterization instantiated at the seller's own
bid, and that bid is rejected with no state change and no resolution. -/
theorem auction_validation_witness :
    ((((Auction.create .openT 0 default 3).process_action 0 .bid
          5000).1 ≠ none) ↔
      ((0 : Nat) = (Auction.create .openT 0 default 3).seller_index ∨
        (5000 : Int) ≤ (Auction.create .openT 0 default 3).current_bid ∨
        (5000 : Int) % 1000 ≠ 0)) ∧
    ((((Auction.create .openT 0 default 3).process_action 0 .bid 5000).2.2
        = Auction.create .openT 0 default 3) ∧
      (((Auction.create .openT 0 default 3).process_action 0 .bid
          5000).2.1 = none)) :=
  ⟨(auction_validation_precedes_mutation
      (Auction.create .openT 0 default 3) 0 5000).1 rfl,
    (auction_validation_precedes_mutation
        (Auction.create .openT 0 default 3) 0 5000).2.2.2.2.1 .bid
      "Seller cannot bid" (by decide)⟩

/-- Witness for `fixed_price_self_purchase`: 4 players, seller P0 at
price 4000, P1 and P2 already declined, P3 declining now. -/
theorem fixed_price_self_purchase_witness :
    (fpDeclinedAuction.auction_type = .fixedPrice) ∧
    (fpDeclinedAuction.state = .waitingForAccept) ∧
    ((3 : Nat) < fpDeclinedAuction.num_players) ∧
    ((fpDeclinedAuction.process_action 3 .passA 0).2.1 =
      some ⟨(fpDeclinedAuction.seller_index : Int),
        fpDeclinedAuction.fixed_price, fpDeclinedAuction.seller_index⟩) :=
  ⟨by decide, by decide, by decide,
    (fixed_price_self_purchase _ 3 fpGame ⟨0, 0, 0⟩).1 (by decide)
      (by decide) (by decide) (by decide)⟩

/-- Witness for `ai_bid_decisions_legal` at a concrete instantiation. -/
theorem ai_bid_decisions_legal_witness :
    ((0 : Int) ≤ 0) ∧ ((0 : Int) % 1000 = 0) ∧ ((0 : Int) ≤ 100000) ∧
    ((∀ b, decide_bid_open .normal default 0 100000 (fun _ => 0)
          (fun _ => 0) false 0 1000 = some b →
        b % 1000 = 0 ∧ b ≤ 100000 ∧ 0 < b) ∧
     ((100000 : Int) < 0 + 1000 →
        decide_bid_open .normal default 0 100000 (fun _ => 0) (fun _ => 0)
          false 0 1000 = none)) :=
  ⟨by decide, by decide, by decide,
    (ai_bid_decisions_legal .normal default 0 100000 (fun _ => 0)
      (fun _ => 0) false 0 0 1000 4).1 (by decide) (by decide) (by decide)⟩

/-- Witness for `double_response_invalid_is_decline`: in `dblGame` the
response names hand card 0, a Blue card, while the escrowed base card is
Orange. -/
theorem double_response_invalid_witness :
    (dblGame.waiting_for_double = true) ∧
    (dblGame.double_player_index = ((0 : Nat) : Int)) ∧
    ((((dblGame.getPlayer 0).hand.length : Int) ≤ 0) ∨
      (0 ≤ (0 : Int) ∧ (0 : Int) < ((dblGame.getPlayer 0).hand.length : Int) ∧
        ((dblGame.getPlayer 0).hand.getD (0 : Int).toNat default).artist ≠
          (dblGame.double_base_card.getD default).artist)) ∧
    (dblGame.handle_double_response 0 0 =
        dblGame.handle_double_response 0 (-1) ∧
      hasError (dblGame.handle_double_response 0 0).2 = false ∧
      (dblGame.board (dblGame.double_base_card.getD default).artist + 1 <
          ROUND_END_CARD_COUNT →
        ((dblGame.handle_double_response 0 0).1.board
            (dblGame.double_base_card.getD default).artist =
          dblGame.board (dblGame.double_base_card.getD default).artist + 1 ∧
         (dblGame.handle_double_response 0 0).1.current_auction =
          some (Auction.create .openT 0
            (dblGame.double_base_card.getD default) dblGame.num_players
            none) ∧
         (dblGame.handle_double_response 0 0).1.waiting_for_double = false ∧
         (dblGame.handle_double_response 0 0).1.players =
          dblGame.players))) :=
  ⟨by decide, by decide, by decide,
    double_response_invalid_is_decline dblGame 0 0 (by decide) (by decide)
      (by decide)⟩

/-- Witness for `money_conservation` at a freshly started 3-player game
(cumulative payout 0). -/
theorem money_conservation_witness :
    Reachable (startGame [] 3) 0 ∧
    totalMoney (startGame [] 3).players + auction_escrow (startGame [] 3) =
      (((startGame [] 3).num_players : Int) * STARTING_MONEY + 0) :=
  ⟨Reachable.init [] 3 (by norm_num) (by norm_num),
    money_conservation _ 0 (Reachable.init [] 3 (by norm_num) (by norm_num))⟩

end ModernArt
